import Mathlib

/-!
# sre-primer: birthday greeting service

Shallow embedding of `main.go` (validators, birthday calculator, request
handlers, connection-string masking) together with the parts of the Go
standard library they rely on (`regexp`, `time`), and the theorems settling
the specification claims.

Strings are Lean `String`s, read as the sequence of runes Go's `regexp` and
`time` packages decode from the UTF-8 text.
-/

namespace SrePrimer

/-! ## `regexp`: syntax and leftmost-first matching -/

/-- Regular expressions, the fragment of Go's `regexp/syntax` used by `main.go`. -/
inductive Regex where
  /-- matches the empty string -/
  | empty : Regex
  /-- a literal rune -/
  | lit (c : Char) : Regex
  /-- a character class `[...]` or `[^...]` given by inclusive ranges -/
  | cls (negated : Bool) (ranges : List (Char × Char)) : Regex
  /-- The anchor `^` without the `m` flag: beginning of text -/
  | beginText : Regex
  /-- The anchor `$` without the `m` flag: end of text -/
  | endText : Regex
  /-- concatenation -/
  | cat (a b : Regex) : Regex
  /-- greedy `a+` -/
  | plus (a : Regex) : Regex
  /-- capturing group `(a)` -/
  | capture (a : Regex) : Regex

/-- A matcher state: the rune index reached and the text that remains. -/
abbrev MState := Nat × List Char

/-- Membership of a rune in a list of inclusive ranges. -/
def inRanges (ranges : List (Char × Char)) (c : Char) : Bool :=
  ranges.any fun r => decide (r.1 ≤ c) && decide (c ≤ r.2)

/-- Membership of a rune in a (possibly negated) class. -/
def classMatches (negated : Bool) (ranges : List (Char × Char)) (c : Char) : Bool :=
  if negated then !inRanges ranges c else inRanges ranges c

/-- Greedy iteration of `step`, one or more times: after each iteration longer
continuations are preferred to stopping. An iteration that consumes nothing
is not repeated. -/
def plusLoop (step : MState → List MState) : Nat → MState → List MState
  | 0, _ => []
  | fuel + 1, st =>
    (step st).flatMap fun st1 =>
      (if st1.2.length < st.2.length then plusLoop step fuel st1 else []) ++ [st1]

/-- All ways `r` matches starting in state `st`, in the preference order of a
leftmost-first (backtracking) matcher. -/
def Regex.run : Regex → MState → List MState
  | .empty, st => [st]
  | .lit c, st =>
    match st.2 with
    | [] => []
    | x :: xs => if x = c then [(st.1 + 1, xs)] else []
  | .cls negated ranges, st =>
    match st.2 with
    | [] => []
    | x :: xs => if classMatches negated ranges x then [(st.1 + 1, xs)] else []
  | .beginText, st => if st.1 = 0 then [st] else []
  | .endText, st => if st.2.isEmpty then [st] else []
  | .cat a b, st => (a.run st).flatMap fun st1 => b.run st1
  | .plus a, st => plusLoop (fun s => a.run s) (st.2.length + 1) st
  | .capture a, st => a.run st

/-- The regular expression of a literal string. -/
def Regex.ofString : List Char → Regex
  | [] => .empty
  | c :: cs => .cat (.lit c) (Regex.ofString cs)

/-- Leftmost match of `re` in the text whose suffix from rune index `pos` is
`rest`: the start and end index of the preferred match at the first start
position that has one. -/
def Regex.findFrom (re : Regex) : Nat → List Char → Option (Nat × Nat)
  | pos, [] =>
    match re.run (pos, []) with
    | [] => none
    | st :: _ => some (pos, st.1)
  | pos, x :: xs =>
    match re.run (pos, x :: xs) with
    | [] => re.findFrom (pos + 1) xs
    | st :: _ => some (pos, st.1)

/-- Go's `(*Regexp).MatchString`: does the text contain any match. -/
def Regex.matchString (re : Regex) (s : String) : Bool :=
  (re.findFrom 0 s.data).isSome

/-- Go's `(*Regexp).replaceAll` loop with a replacement that holds no `$`
(so that template expansion copies it verbatim): `lastMatchEnd` is the end of
the most recent match, `searchPos` the index where the next match is looked
for, `buf` the output so far. Indices count runes. -/
def Regex.replaceAllLoop (re : Regex) (src repl : List Char) :
    Nat → Nat → Nat → List Char → List Char
  | 0, lastMatchEnd, _, buf => buf ++ src.drop lastMatchEnd
  | fuel + 1, lastMatchEnd, searchPos, buf =>
    if searchPos ≤ src.length then
      match re.findFrom searchPos (src.drop searchPos) with
      | none => buf ++ src.drop lastMatchEnd
      | some a =>
        let buf1 := buf ++ (src.drop lastMatchEnd).take (a.1 - lastMatchEnd)
        let buf2 := if a.2 > lastMatchEnd ∨ a.1 = 0 then buf1 ++ repl else buf1
        let width := if searchPos < src.length then 1 else 0
        let searchPos1 :=
          if searchPos + width > a.2 then searchPos + width
          else if searchPos + 1 > a.2 then searchPos + 1
          else a.2
        re.replaceAllLoop src repl fuel a.2 searchPos1 buf2
    else buf ++ src.drop lastMatchEnd

/-- Go's `(*Regexp).ReplaceAllString` for a replacement without `$`. The search
position grows in every round, so `length + 2` rounds always suffice. -/
def Regex.replaceAllString (re : Regex) (src repl : String) : String :=
  ⟨re.replaceAllLoop src.data repl.data (src.data.length + 2) 0 0 []⟩

/-! ## `time`: instants, the proleptic Gregorian calendar, durations -/

def secondsPerDay : Nat := 86400
def nanosPerSecond : Nat := 1000000000
def daysPer400Years : Nat := 365 * 400 + 97
def daysPer100Years : Nat := 365 * 100 + 24
def daysPer4Years : Nat := 365 * 4 + 1

/-- The year whose January 1 is the zero of absolute time. -/
def absoluteZeroYear : Int := -292277022399

/-- A `time.Time`: the instant, in nanoseconds since the absolute epoch
(January 1 of `absoluteZeroYear`, 00:00:00 UTC), and the offset east of UTC,
in seconds, that the value's location has at that instant. -/
structure Time where
  wall : Nat
  offset : Int
deriving DecidableEq, Repr

/-- The least `time.Duration`, a signed count of nanoseconds held in an `int64`. -/
def minDuration : Int := -(2 ^ 63)
/-- The greatest `time.Duration`. -/
def maxDuration : Int := 2 ^ 63 - 1
/-- The duration `time.Hour`, in nanoseconds. -/
def Hour : Int := 3600000000000

/-- Gregorian leap year rule, `year%4 == 0 && (year%100 != 0 || year%400 == 0)`. -/
def isLeap (year : Int) : Bool :=
  year % 4 == 0 && (year % 100 != 0 || year % 400 == 0)

/-- The table with `daysBefore[m]` the number of days in a non-leap year before month `m+1`. -/
def daysBefore : List Nat :=
  [0, 31, 31 + 28, 31 + 28 + 31, 31 + 28 + 31 + 30, 31 + 28 + 31 + 30 + 31,
   31 + 28 + 31 + 30 + 31 + 30, 31 + 28 + 31 + 30 + 31 + 30 + 31,
   31 + 28 + 31 + 30 + 31 + 30 + 31 + 31, 31 + 28 + 31 + 30 + 31 + 30 + 31 + 31 + 30,
   31 + 28 + 31 + 30 + 31 + 30 + 31 + 31 + 30 + 31,
   31 + 28 + 31 + 30 + 31 + 30 + 31 + 31 + 30 + 31 + 30,
   31 + 28 + 31 + 30 + 31 + 30 + 31 + 31 + 30 + 31 + 30 + 31]

/-- Number of days in month `m` of `year`. -/
def daysIn (m : Int) (year : Int) : Int :=
  if m = 2 ∧ isLeap year = true then 29
  else (daysBefore.getD m.toNat 0 : Int) - (daysBefore.getD (m - 1).toNat 0 : Int)

/-- Days from the absolute epoch to January 1 of `year`. -/
def daysSinceEpoch (year : Int) : Nat :=
  let y := (year - absoluteZeroYear).toNat
  let n400 := y / 400
  let y1 := y - 400 * n400
  let n100 := y1 / 100
  let y2 := y1 - 100 * n100
  let n4 := y2 / 4
  let y3 := y2 - 4 * n4
  daysPer400Years * n400 + daysPer100Years * n100 + daysPer4Years * n4 + 365 * y3

/-- Carry `lo` into `hi` so that `0 ≤ lo < base`. -/
def norm (hi lo base : Int) : Int × Int :=
  let a : Int × Int :=
    if lo < 0 then
      let n := (-lo - 1) / base + 1
      (hi - n, lo + n * base)
    else (hi, lo)
  if a.2 ≥ base then
    let n := a.2 / base
    (a.1 + n, a.2 - n * base)
  else a

/-- Go's `time.Date(year, month, day, hour, min, sec, nsec, time.UTC)`. Values
outside their usual ranges are normalised: October 32 becomes November 1,
February 29 of a common year becomes March 1. -/
def Date (year month day hour min sec nsec : Int) : Time :=
  let ym := norm year (month - 1) 12
  let year1 := ym.1
  let month1 := ym.2 + 1
  let sn := norm sec nsec 1000000000
  let ms := norm min sn.1 60
  let hm := norm hour ms.1 60
  let dh := norm day hm.1 24
  let d0 : Int := (daysSinceEpoch year1 : Int) + (daysBefore.getD (month1 - 1).toNat 0 : Int)
  let d1 : Int := if isLeap year1 = true ∧ month1 ≥ 3 then d0 + 1 else d0
  let d2 : Int := d1 + (dh.1 - 1)
  let abs : Int := d2 * 86400 + (dh.2 * 3600 + hm.2 * 60 + ms.2)
  { wall := (abs * 1000000000 + sn.2).toNat, offset := 0 }

/-- Year relative to `absoluteZeroYear`, and zero-based day of the year, of the
day that is `days` days after the absolute epoch. -/
def absYearDay (days : Nat) : Nat × Nat :=
  let n400 := days / daysPer400Years
  let d1 := days - daysPer400Years * n400
  let n100 := d1 / daysPer100Years
  let n100c := n100 - (n100 >>> 2)
  let d2 := d1 - daysPer100Years * n100c
  let n4 := d2 / daysPer4Years
  let d3 := d2 - daysPer4Years * n4
  let n1 := d3 / 365
  let n1c := n1 - (n1 >>> 2)
  (400 * n400 + 100 * n100c + 4 * n4 + n1c, d3 - 365 * n1c)

/-- Month (1 to 12) and day of the month of the zero-based day `yday` of a year;
`leap` is `isLeap year`. -/
def ydayMonthDay (leap : Bool) (yday : Nat) : Nat × Nat :=
  if leap = true ∧ yday = 31 + 29 - 1 then (2, 29)
  else
    let day := if leap = true ∧ yday > 31 + 29 - 1 then yday - 1 else yday
    let month := day / 31
    let e := daysBefore.getD (month + 1) 0
    if day ≥ e then (month + 2, day - e + 1)
    else (month + 1, day - daysBefore.getD month 0 + 1)

/-- Seconds since the absolute epoch, shifted into the value's location. -/
def Time.abs (t : Time) : Nat :=
  (((t.wall / nanosPerSecond : Nat) : Int) + t.offset).toNat

/-- Go's `Time.Year`. -/
def Time.Year (t : Time) : Int :=
  ((absYearDay (t.abs / secondsPerDay)).1 : Int) + absoluteZeroYear

/-- Go's `Time.Month`. -/
def Time.Month (t : Time) : Int :=
  ((ydayMonthDay (isLeap t.Year) (absYearDay (t.abs / secondsPerDay)).2).1 : Int)

/-- Go's `Time.Day`. -/
def Time.Day (t : Time) : Int :=
  ((ydayMonthDay (isLeap t.Year) (absYearDay (t.abs / secondsPerDay)).2).2 : Int)

/-- Go's `Time.Before`: the instant `t` is before `u`. -/
def Time.Before (t u : Time) : Bool := decide (t.wall < u.wall)

/-- Go's `Time.After`: the instant `t` is after `u`. -/
def Time.After (t u : Time) : Bool := decide (u.wall < t.wall)

/-- Go's `Time.Sub`: the duration `t - u`, saturated to the `int64` range. -/
def Time.Sub (t u : Time) : Int :=
  let d : Int := (t.wall : Int) - (u.wall : Int)
  if d < minDuration then minDuration else if d > maxDuration then maxDuration else d

/-! ### `float64` arithmetic -/

/-- Nearest integer, ties to even. -/
def roundHalfEven (x : ℚ) : Int :=
  let f := ⌊x⌋
  let r := x - f
  if r < 1 / 2 then f else if 1 / 2 < r then f + 1 else if f % 2 = 0 then f else f + 1

/-- IEEE 754 binary64 rounding (to nearest, ties to even) of a real number to a
53-bit significand. The exponent is not bounded: the values that arise from a
`Duration` lie between `2^-42` and `2^22`, inside the normal range. -/
def roundFloat64 (x : ℚ) : ℚ :=
  if x = 0 then 0
  else
    let ulp : ℚ := 2 ^ (Int.log 2 |x| - 52)
    (roundHalfEven (x / ulp) : ℚ) * ulp

/-- Go's `Duration.Hours`: `float64(d / Hour) + float64(d % Hour) / (60*60*1e9)`,
with Go's truncating integer division. -/
def Duration.Hours (d : Int) : ℚ :=
  roundFloat64 (roundFloat64 (d.tdiv Hour) + roundFloat64 (roundFloat64 (d.tmod Hour) / 3600000000000))

/-- Go's conversion `int(x)` of a `float64`: truncation toward zero. -/
def truncToInt (x : ℚ) : Int :=
  if 0 ≤ x then ⌊x⌋ else ⌈x⌉

/-! ### `time.Parse` -/

/-- The layout elements used by `main.go`: `2006`, `01`, `02`, `15`, `04`, `05`. -/
inductive Std where
  | longYear | zeroMonth | zeroDay | hour | zeroMinute | zeroSecond
deriving DecidableEq, Repr

/-- A layout cut into its elements, each with the literal text that precedes
it, and the literal text after the last element. -/
structure Layout where
  chunks : List (List Char × Std)
  suffix : List Char

/-- The layout `"2006-01-02"`. -/
def layoutDate : Layout :=
  { chunks := [([], .longYear), (['-'], .zeroMonth), (['-'], .zeroDay)], suffix := [] }

/-- The layout `"2006-01-02T15:04:05Z"`; a `Z` that no zone element follows is
literal text. -/
def layoutTimestamp : Layout :=
  { chunks := [([], .longYear), (['-'], .zeroMonth), (['-'], .zeroDay), (['T'], .hour),
      ([':'], .zeroMinute), ([':'], .zeroSecond)],
    suffix := ['Z'] }

/-- The fields `Parse` collects; an absent month or day is `-1`. -/
structure Fields where
  year : Int := 0
  month : Int := -1
  day : Int := -1
  hour : Int := 0
  min : Int := 0
  sec : Int := 0
  nsec : Int := 0
deriving DecidableEq, Repr

/-- Is there a decimal digit at index `i` of `s`. -/
def isDigit (s : List Char) (i : Nat) : Bool :=
  match s.get? i with
  | none => false
  | some c => decide ('0' ≤ c) && decide (c ≤ '9')

/-- Value of a decimal digit. -/
def digitVal (c : Char) : Int := (c.toNat : Int) - ('0'.toNat : Int)

/-- Drop leading spaces. -/
def cutspace : List Char → List Char
  | ' ' :: s => cutspace s
  | s => s

/-- Go's `skip`: remove the literal `pre` from the front of `value`; a space in
`pre` stands for zero or more spaces. -/
def skip : Nat → List Char → List Char → Option (List Char)
  | 0, _, _ => none
  | _ + 1, value, [] => some value
  | fuel + 1, value, p :: ps =>
    if p = ' ' then
      match value with
      | v :: vs => if v ≠ ' ' then none else skip fuel (cutspace (v :: vs)) (cutspace (p :: ps))
      | [] => skip fuel [] (cutspace (p :: ps))
    else
      match value with
      | [] => none
      | v :: vs => if v ≠ p then none else skip fuel vs ps

/-- Go's `getnum`: a number of one or two digits, exactly two when `fixed`. -/
def getnum (s : List Char) (fixed : Bool) : Option (Int × List Char) :=
  if !isDigit s 0 then none
  else if !isDigit s 1 then
    if fixed then none else some (digitVal (s.getD 0 '0'), s.drop 1)
  else some (digitVal (s.getD 0 '0') * 10 + digitVal (s.getD 1 '0'), s.drop 2)

/-- Go's `leadingInt`: the number spelled by the leading digits, and the rest.
(The overflow guard of the original is never reached by the at most nine
digits it is given here.) -/
def leadingInt : Nat → List Char → Nat × List Char
  | x, [] => (x, [])
  | x, c :: cs =>
    if decide ('0' ≤ c) && decide (c ≤ '9') then leadingInt (x * 10 + (c.toNat - '0'.toNat)) cs
    else (x, c :: cs)

/-- Go's `atoi`: an optionally signed decimal number filling the whole text. -/
def atoi (s : List Char) : Option Int :=
  let neg := s.head? = some '-'
  let s1 := if s.head? = some '-' ∨ s.head? = some '+' then s.drop 1 else s
  let r := leadingInt 0 s1
  if r.2 ≠ [] then none
  else some (if neg then -(r.1 : Int) else (r.1 : Int))

/-- Is the byte a comma or a period. -/
def commaOrPeriod (c : Char) : Bool := c = '.' || c = ','

/-- Length of the run of digits of `value` from index `n` on, added to `n`. -/
def digitRunEnd (value : List Char) : Nat → Nat → Nat
  | 0, n => n
  | fuel + 1, n => if n < value.length ∧ isDigit value n = true then digitRunEnd value fuel (n + 1) else n

/-- Go's `parseNanoseconds`: the fraction of a second spelled by
`value[0:nbytes]`, which starts with a comma or period. -/
def parseNanoseconds (value : List Char) (nbytes : Nat) : Option Int :=
  match value.head? with
  | none => none
  | some c =>
    if !commaOrPeriod c then none
    else
      let nb := if nbytes > 10 then 10 else nbytes
      match atoi ((value.take nb).drop 1) with
      | none => none
      | some ns => if ns < 0 then none else some (ns * 10 ^ (10 - nb))

/-- One round of the loop of `Parse`: read the element `std` from `value`. None
of the layouts here has a fractional-second element, so a fraction that follows
the seconds is read as Go does in that case. -/
def parseStd (std : Std) (f : Fields) (value : List Char) : Option (Fields × List Char) :=
  match std with
  | .longYear =>
    if value.length < 4 || !isDigit value 0 then none
    else
      match atoi (value.take 4) with
      | none => none
      | some y => some ({ f with year := y }, value.drop 4)
  | .zeroMonth =>
    match getnum value true with
    | none => none
    | some (m, rest) => if m ≤ 0 ∨ 12 < m then none else some ({ f with month := m }, rest)
  | .zeroDay =>
    match getnum value true with
    | none => none
    | some (d, rest) => some ({ f with day := d }, rest)
  | .hour =>
    match getnum value false with
    | none => none
    | some (h, rest) => if h < 0 ∨ 24 ≤ h then none else some ({ f with hour := h }, rest)
  | .zeroMinute =>
    match getnum value true with
    | none => none
    | some (m, rest) => if m < 0 ∨ 60 ≤ m then none else some ({ f with min := m }, rest)
  | .zeroSecond =>
    match getnum value true with
    | none => none
    | some (s, rest) =>
      if s < 0 ∨ 60 ≤ s then none
      else if rest.length ≥ 2 ∧ commaOrPeriod (rest.getD 0 ' ') = true ∧ isDigit rest 1 = true then
        let n := digitRunEnd rest rest.length 2
        match parseNanoseconds rest n with
        | none => none
        | some ns => some ({ f with sec := s, nsec := ns }, rest.drop n)
      else some ({ f with sec := s }, rest)

/-- The loop of `Parse` over the elements of the layout. -/
def parseChunks : List (List Char × Std) → Fields → List Char → Option (Fields × List Char)
  | [], f, value => some (f, value)
  | (pre, std) :: rest, f, value =>
    (skip (pre.length + 1) value pre).bind fun v1 =>
      (parseStd std f v1).bind fun r => parseChunks rest r.1 r.2

/-- Go's `time.Parse(layout, value)`, `none` standing for any parse error: read
the elements, reject extra text, default an absent month or day to 1, check
the day against the length of the month, and build the time in UTC. -/
def Parse (layout : Layout) (value : String) : Option Time :=
  (parseChunks layout.chunks {} value.data).bind fun r =>
    (skip (layout.suffix.length + 1) r.2 layout.suffix).bind fun v1 =>
      if v1 ≠ [] then none
      else
        let month := if r.1.month < 0 then 1 else r.1.month
        let day := if r.1.day < 0 then 1 else r.1.day
        if day < 1 ∨ day > daysIn month r.1.year then none
        else some (Date r.1.year month day r.1.hour r.1.min r.1.sec r.1.nsec)

/-! ## Validator -/

/-- The pattern `^[a-zA-Z]+$` (main.go, line 55). -/
def usernameRegex : Regex :=
  .cat .beginText (.cat (.plus (.cls false [('a', 'z'), ('A', 'Z')])) .endText)

/-- Checks if the username contains only letters (main.go, line 280). -/
def validateUsername (username : String) : Bool :=
  usernameRegex.matchString username

/-- Checks if the date is in the past (main.go, line 285); `now` is the value of
`time.Now()`, `none` is the `nil` error and `some msg` an error with text `msg`. -/
def validateDateOfBirth (dateStr : String) (now : Time) : Option String :=
  match Parse layoutDate dateStr with
  | none => some "invalid date format. Use YYYY-MM-DD"
  | some date =>
    if date.After now then some "date of birth cannot be in the future"
    else none

/-! ## Birthday calculator -/

/-- The value of `nextBirthday` when `createBirthdayMessage` computes the day
count (main.go, lines 485 to 490). -/
def nextBirthday (dob today : Time) : Time :=
  let candidate := Date today.Year dob.Month dob.Day 0 0 0 0
  if candidate.Before today then Date (today.Year + 1) dob.Month dob.Day 0 0 0 0
  else candidate

/-- The value of `daysUntil`, `int(nextBirthday.Sub(today).Hours() / 24)`
(main.go, line 492). -/
def daysUntil (dob today : Time) : Int :=
  truncToInt (roundFloat64 (Duration.Hours ((nextBirthday dob today).Sub today) / 24))

/-- Generates the appropriate birthday message (main.go, line 474). -/
def createBirthdayMessage (username : String) (dob today : Time) : String :=
  if dob.Month = today.Month ∧ dob.Day = today.Day then
    "Hello, " ++ username ++ "! Happy birthday!"
  else
    "Hello, " ++ username ++ "! Your birthday is in " ++ toString (daysUntil dob today) ++ " day(s)"

/-! ## Connection string -/

/-- The pattern `password=([^\\s]+)` as written in the raw string literal of
main.go, line 204: inside the class the two backslashes are one escaped
backslash and `s` is the letter, so the class is "any rune but `\` and `s`". -/
def passwordRegex : Regex :=
  .cat (Regex.ofString "password=".data)
    (.capture (.plus (.cls true [('\\', '\\'), ('s', 's')])))

/-- Masks the password in connection strings for logging (main.go, line 203). -/
def hidePassword (connStr : String) : String :=
  passwordRegex.replaceAllString connStr "password=*****"

/-- Retrieves environment variables with a fallback value (main.go, line 222);
`env` is the process environment. -/
def getEnv (env : String → Option String) (key fallback : String) : String :=
  match env key with
  | some value => value
  | none => fallback

/-- Constructs the PostgreSQL connection string (main.go, line 209). -/
def getDBConnectionString (env : String → Option String) : String :=
  let host := getEnv env "DB_HOST" "pgdb"
  let port := getEnv env "DB_PORT" "5432"
  let user := getEnv env "DB_USER" "hello_service_db_user"
  let password := getEnv env "DB_PASSWORD" "replace_me"
  let dbname := getEnv env "DB_NAME" "hello_service_db"
  "host=" ++ host ++ " port=" ++ port ++ " user=" ++ user ++ " password=" ++ password ++
    " dbname=" ++ dbname ++ " sslmode=disable"

/-! ## Request handlers -/

/-- The user data with date of birth (main.go, line 65). -/
structure User where
  DateOfBirth : String
deriving DecidableEq, Repr

/-- What a handler writes: nothing, a plain-text message (`http.Error`), or a
JSON object of string fields. -/
inductive Body where
  | empty : Body
  | text (msg : String) : Body
  | json (fields : List (String × String)) : Body
deriving DecidableEq, Repr

/-- An HTTP response: status code and body. -/
structure Response where
  status : Nat
  body : Body
deriving DecidableEq, Repr

/-- The outcome of `QueryRowContext(...).Scan(&dateOfBirth)`. -/
inductive QueryResult where
  | row (dateOfBirth : String) : QueryResult
  | noRows : QueryResult
  | failure : QueryResult
deriving DecidableEq, Repr

/-- A call a handler issues on the database handle. -/
inductive DBCall where
  | ping : DBCall
  | exec (username dateOfBirth : String) : DBCall
  | query (username : String) : DBCall
deriving DecidableEq, Repr

/-- The collaborators of the handlers: the record store, over states `σ`, and
the JSON decoder of `encoding/json`.
* `ping st`: does `db.PingContext` succeed;
* `exec st username dob`: the upsert statement, giving the next state and
  whether it succeeded;
* `queryRow st username`: the select statement scanned into a string;
* `decodeUser body`: `json.NewDecoder(body).Decode(&user)`, `none` on error. -/
structure Env (σ : Type) where
  ping : σ → Bool
  exec : σ → String → String → σ × Bool
  queryRow : σ → String → QueryResult
  decodeUser : String → Option User

/-- What running a handler leaves behind: the response, the state of the
store, and the calls issued on the database handle, in order. -/
structure Outcome (σ : Type) where
  resp : Response
  db : σ
  calls : List DBCall

/-- Checks if the database connection is ready (main.go, line 498). -/
def isDatabaseReady {σ : Type} (env : Env σ) (st : σ) : Bool :=
  env.ping st

/-- Handles the PUT request to store a user's date of birth (main.go, line 300).
`username` is the path value, `body` the request body, `now` the clock. -/
def putUserHandler {σ : Type} (env : Env σ) (now : Time) (st : σ) (username body : String) :
    Outcome σ :=
  if !isDatabaseReady env st then
    ⟨⟨503, .text "Service unavailable: database connection not ready"⟩, st, [.ping]⟩
  else if username = "" then
    ⟨⟨400, .text "Missing username parameter"⟩, st, [.ping]⟩
  else if !validateUsername username then
    ⟨⟨400, .text "Username must contain only letters"⟩, st, [.ping]⟩
  else
    match env.decodeUser body with
    | none => ⟨⟨400, .text "Invalid request body"⟩, st, [.ping]⟩
    | some user =>
      match validateDateOfBirth user.DateOfBirth now with
      | some msg => ⟨⟨400, .text msg⟩, st, [.ping]⟩
      | none =>
        let r := env.exec st username user.DateOfBirth
        if !r.2 then
          ⟨⟨500, .text "Error storing data"⟩, r.1, [.ping, .exec username user.DateOfBirth]⟩
        else
          ⟨⟨204, .empty⟩, r.1, [.ping, .exec username user.DateOfBirth]⟩

/-- Handles the GET request to retrieve a user's birthday greeting
(main.go, line 383). -/
def getUserHandler {σ : Type} (env : Env σ) (now : Time) (st : σ) (username : String) :
    Outcome σ :=
  if !isDatabaseReady env st then
    ⟨⟨503, .text "Service unavailable: database connection not ready"⟩, st, [.ping]⟩
  else if username = "" then
    ⟨⟨400, .text "Missing username parameter"⟩, st, [.ping]⟩
  else if !validateUsername username then
    ⟨⟨400, .text "Username must contain only letters"⟩, st, [.ping]⟩
  else
    match env.queryRow st username with
    | .noRows => ⟨⟨404, .text "User not found"⟩, st, [.ping, .query username]⟩
    | .failure => ⟨⟨500, .text "Error retrieving data"⟩, st, [.ping, .query username]⟩
    | .row dateOfBirth =>
      match Parse layoutTimestamp dateOfBirth with
      | none => ⟨⟨500, .text "Invalid date stored"⟩, st, [.ping, .query username]⟩
      | some dob =>
        ⟨⟨200, .json [("message", createBirthdayMessage username dob now)]⟩, st,
          [.ping, .query username]⟩

/-- Go's `strings.Contains`. -/
def stringsContains (s substr : String) : Bool :=
  decide (substr.data <:+: s.data)

/-! ## Calendar notions used to state the properties -/

/-- Length of month `m` (1 to 12) in a leap or common year; 0 for other `m`. -/
def monthLength (leap : Bool) (m : Nat) : Nat :=
  match m with
  | 1 => 31
  | 2 => if leap then 29 else 28
  | 3 => 31
  | 4 => 30
  | 5 => 31
  | 6 => 30
  | 7 => 31
  | 8 => 31
  | 9 => 30
  | 10 => 31
  | 11 => 30
  | 12 => 31
  | _ => 0

/-- Zero-based day of the year of day `d` of month `m`. -/
def dayOfYear (leap : Bool) (m d : Nat) : Nat :=
  daysBefore.getD (m - 1) 0 + (if leap = true ∧ 3 ≤ m then 1 else 0) + (d - 1)

/-- Number of days from the absolute epoch to day `d` of month `m` of `year`. -/
def daysOfCivil (year : Int) (m d : Nat) : Nat :=
  daysSinceEpoch year + dayOfYear (isLeap year) m d

/-- Year, month and day of the day that is `n` days after the absolute epoch. -/
def civilOfDays (n : Nat) : Int × Nat × Nat :=
  let year : Int := ((absYearDay n).1 : Int) + absoluteZeroYear
  (year, ydayMonthDay (isLeap year) (absYearDay n).2)

/-- Nanoseconds in a day. -/
def nanosPerDay : Nat := 86400000000000

/-- The instant `j` whole days after `t`, in the same location. -/
def Time.addDays (t : Time) (j : Nat) : Time :=
  { wall := t.wall + j * nanosPerDay, offset := t.offset }

/-- An ASCII letter, `a`-`z` or `A`-`Z`. -/
def isAsciiLetter (c : Char) : Prop :=
  ('a' ≤ c ∧ c ≤ 'z') ∨ ('A' ≤ c ∧ c ≤ 'Z')

/-- The Gregorian rule: every fourth year is a leap year, except the centuries
that are not multiples of 400. -/
def gregorianLeap (y : Nat) : Bool :=
  decide (y % 4 = 0 ∧ (y % 100 ≠ 0 ∨ y % 400 = 0))

/-- A decimal digit, `0`-`9`. -/
def isDecimalDigit (c : Char) : Prop := '0' ≤ c ∧ c ≤ '9'

/-- Value of a decimal digit. -/
def decimalValue (c : Char) : Nat := c.toNat - 48

/-- The text `s` is a zero-padded `YYYY-MM-DD` naming day `d` of month `m` of
year `y`, a real date of the Gregorian calendar: four digits, a hyphen, two
digits, a hyphen, two digits, the month from 01 to 12 and the day from 01 to
the number of days of that month. -/
def IsCalendarDate (s : String) (y m d : Nat) : Prop :=
  ∃ y1 y2 y3 y4 m1 m2 d1 d2 : Char,
    s.data = [y1, y2, y3, y4, '-', m1, m2, '-', d1, d2] ∧
    (isDecimalDigit y1 ∧ isDecimalDigit y2 ∧ isDecimalDigit y3 ∧ isDecimalDigit y4) ∧
    (isDecimalDigit m1 ∧ isDecimalDigit m2) ∧ (isDecimalDigit d1 ∧ isDecimalDigit d2) ∧
    y = 1000 * decimalValue y1 + 100 * decimalValue y2 + 10 * decimalValue y3 + decimalValue y4 ∧
    m = 10 * decimalValue m1 + decimalValue m2 ∧
    d = 10 * decimalValue d1 + decimalValue d2 ∧
    1 ≤ m ∧ m ≤ 12 ∧ 1 ≤ d ∧ d ≤ monthLength (gregorianLeap y) m

/-- Midnight UTC at the start of day `d` of month `m` of year `y`. -/
def midnightUTC (y m d : Nat) : Time :=
  { wall := daysOfCivil (y : Int) m d * nanosPerDay, offset := 0 }

/-! ## Collaborators used to exercise the handlers -/

/-- A record store kept in memory: pairs of username and stored text. -/
abbrev Records := List (String × String)

/-- Upsert into the in-memory store; it always succeeds. -/
def memExec (st : Records) (username dateOfBirth : String) : Records × Bool :=
  ((username, dateOfBirth) :: st.filter (fun r => r.1 != username), true)

/-- Select from the in-memory store; `render` turns the stored text into the
text the driver hands to `Scan`. -/
def memQuery (render : String → String) (st : Records) (username : String) : QueryResult :=
  match st.lookup username with
  | some dateOfBirth => .row (render dateOfBirth)
  | none => .noRows

/-- A decoder for request bodies of the exact form
`\x7b"dateOfBirth":"<text>"\x7d` with no quote or backslash in `<text>`;
any other body is rejected. -/
def decodeFlat (body : String) : Option User :=
  let pre := "\x7b\"dateOfBirth\":\"".data
  let l := body.data
  if pre.isPrefixOf l then
    match (l.drop pre.length).reverse with
    | '\x7d' :: '"' :: inner =>
      if inner.all (fun c => c != '"' && c != '\\') then some ⟨⟨inner.reverse⟩⟩ else none
    | _ => none
  else none

/-- A ready store that hands back the text exactly as it was written. -/
def echoEnv : Env Records :=
  { ping := fun _ => true, exec := memExec, queryRow := memQuery id, decodeUser := decodeFlat }

/-- A ready store with a date column: the date written is handed back as the
RFC 3339 timestamp of its midnight in UTC. -/
def dateColumnEnv : Env Records :=
  { ping := fun _ => true, exec := memExec,
    queryRow := memQuery (fun dateOfBirth => dateOfBirth ++ "T00:00:00Z"),
    decodeUser := decodeFlat }

/-- A store whose connection is down. -/
def downEnv : Env Records :=
  { ping := fun _ => false, exec := memExec, queryRow := memQuery id, decodeUser := decodeFlat }

/-! ## Theorems -/

/-! ### Usernames -/

theorem classMatches_letters (c : Char) :
    classMatches false [('a', 'z'), ('A', 'Z')] c = true ↔ isAsciiLetter c := by
  simp [classMatches, inRanges, isAsciiLetter]

/-- The greedy loop over a class reaches the end of the text exactly when the
text is non-empty and lies in the class. -/
theorem plusLoop_cls_reaches_end (negated : Bool) (ranges : List (Char × Char)) :
    ∀ (xs : List Char) (fuel p : Nat), xs.length ≤ fuel →
      ((∃ st ∈ plusLoop (fun s => (Regex.cls negated ranges).run s) fuel (p, xs), st.2 = []) ↔
        (xs ≠ [] ∧ ∀ c ∈ xs, classMatches negated ranges c = true)) := by
  intro xs
  induction xs with
  | nil =>
    intro fuel p _
    cases fuel <;> simp [plusLoop, Regex.run]
  | cons x t ih =>
    intro fuel p hf
    cases fuel with
    | zero => simp at hf
    | succ f =>
      have hf1 : t.length ≤ f := by simpa using hf
      by_cases hx : classMatches negated ranges x = true
      · have := ih f (p + 1) hf1
        simp only [plusLoop, Regex.run, hx, if_true, List.flatMap_cons, List.flatMap_nil,
          List.append_nil, List.length_cons, Nat.lt_succ_self, List.mem_append,
          List.mem_singleton]
        constructor
        · rintro ⟨st, hst | hst, h2⟩
          · have h3 := this.mp ⟨st, hst, h2⟩
            refine ⟨by simp, ?_⟩
            intro c hc
            rcases List.mem_cons.mp hc with rfl | hc
            · exact hx
            · exact h3.2 c hc
          · subst hst
            simp only at h2
            subst h2
            simp [hx]
        · rintro ⟨_, hall⟩
          by_cases ht : t = []
          · exact ⟨(p + 1, t), Or.inr rfl, ht⟩
          · obtain ⟨st, hst, h2⟩ := this.mpr ⟨ht, fun c hc => hall c (List.mem_cons_of_mem _ hc)⟩
            exact ⟨st, Or.inl hst, h2⟩
      · simp [plusLoop, Regex.run, hx]

theorem usernameRegex_run_pos (p : Nat) (xs : List Char) (hp : 0 < p) :
    usernameRegex.run (p, xs) = [] := by
  simp [usernameRegex, Regex.run, Nat.pos_iff_ne_zero.mp hp]

theorem usernameRegex_findFrom_pos (xs : List Char) :
    ∀ p : Nat, 0 < p → usernameRegex.findFrom p xs = none := by
  induction xs with
  | nil => intro p hp; simp [Regex.findFrom, usernameRegex_run_pos p [] hp]
  | cons x t ih =>
    intro p hp
    simp [Regex.findFrom, usernameRegex_run_pos p (x :: t) hp, ih (p + 1) (Nat.succ_pos p)]

theorem usernameRegex_run_zero (xs : List Char) :
    usernameRegex.run (0, xs) ≠ [] ↔ (xs ≠ [] ∧ ∀ c ∈ xs, isAsciiLetter c) := by
  have h := plusLoop_cls_reaches_end false [('a', 'z'), ('A', 'Z')] xs (xs.length + 1) 0
    (Nat.le_succ _)
  simp only [classMatches_letters] at h
  rw [← h]
  simp only [usernameRegex, Regex.run, if_true, List.flatMap_cons, List.flatMap_nil,
    List.append_nil, ne_eq, List.flatMap_eq_nil_iff, not_forall, List.isEmpty_iff]
  constructor
  · rintro ⟨st, hst, h2⟩
    refine ⟨st, hst, ?_⟩
    by_contra hne
    exact h2 (by simp [hne])
  · rintro ⟨st, hst, h2⟩
    exact ⟨st, hst, by simp [h2]⟩

/-- C1: `validateUsername s` is true exactly when `s` is non-empty and every
character of `s` is an ASCII letter; hence it is false for the empty string and
for any string containing a character that is not an ASCII letter (a digit,
punctuation, whitespace such as a trailing newline, or a non-ASCII character). -/
theorem validateUsername_iff (s : String) :
    (validateUsername s = true ↔ (s ≠ "" ∧ ∀ c ∈ s.data, isAsciiLetter c)) ∧
    validateUsername "" = false ∧
    (∀ c ∈ s.data, ¬ isAsciiLetter c → validateUsername s = false) := by
  have key : ∀ t : String,
      (validateUsername t = true ↔ (t ≠ "" ∧ ∀ c ∈ t.data, isAsciiLetter c)) := by
    intro t
    have hne : t ≠ "" ↔ t.data ≠ [] := by
      rw [ne_eq, ne_eq, String.ext_iff]
    rw [hne, ← usernameRegex_run_zero]
    unfold validateUsername Regex.matchString
    cases hd : t.data with
    | nil =>
      cases hr : usernameRegex.run (0, []) <;> simp [Regex.findFrom, hr]
    | cons x xs =>
      cases hr : usernameRegex.run (0, x :: xs) <;>
        simp [Regex.findFrom, hr, usernameRegex_findFrom_pos]
  refine ⟨key s, by decide, ?_⟩
  intro c hc hnot
  by_contra hv
  have hv1 : validateUsername s = true := by simpa using hv
  exact hnot (((key s).mp hv1).2 c hc)
/-! ### The calendar -/

theorem isLeap_iff (year : Int) :
    isLeap year = true ↔ (year % 4 = 0 ∧ (year % 100 ≠ 0 ∨ year % 400 = 0)) := by
  simp [isLeap]

/-- The value of `daysSinceEpoch` in terms of the year counted from `absoluteZeroYear`. -/
theorem daysSinceEpoch_ofNat (y : Nat) :
    daysSinceEpoch ((y : Int) + absoluteZeroYear) =
      146097 * (y / 400) + 36524 * ((y - 400 * (y / 400)) / 100) +
        1461 * ((y - 400 * (y / 400) - 100 * ((y - 400 * (y / 400)) / 100)) / 4) +
        365 * (y - 400 * (y / 400) - 100 * ((y - 400 * (y / 400)) / 100) -
          4 * ((y - 400 * (y / 400) - 100 * ((y - 400 * (y / 400)) / 100)) / 4)) := by
  have h2 : ((y : Int) + absoluteZeroYear - absoluteZeroYear).toNat = y := by omega
  simp only [daysSinceEpoch, h2, daysPer400Years, daysPer100Years, daysPer4Years]

theorem isLeap_ofNat (y : Nat) :
    isLeap ((y : Int) + absoluteZeroYear) = true ↔
      ((y + 1) % 4 = 0 ∧ ((y + 1) % 100 ≠ 0 ∨ (y + 1) % 400 = 0)) := by
  rw [isLeap_iff]
  unfold absoluteZeroYear
  omega

theorem daysSinceEpoch_succ (year : Int) (h : absoluteZeroYear ≤ year) :
    daysSinceEpoch (year + 1) = daysSinceEpoch year + (if isLeap year = true then 366 else 365) := by
  obtain ⟨y, hy⟩ : ∃ y : Nat, year = (y : Int) + absoluteZeroYear :=
    ⟨(year - absoluteZeroYear).toNat, by unfold absoluteZeroYear at *; omega⟩
  subst hy
  have h1 : (y : Int) + absoluteZeroYear + 1 = ((y + 1 : Nat) : Int) + absoluteZeroYear := by
    push_cast; ring
  rw [h1, daysSinceEpoch_ofNat, daysSinceEpoch_ofNat]
  simp only [isLeap_ofNat]
  split <;> omega

/-- The decomposition computed by `absYearDay`. -/
theorem absYearDay_decomp (days : Nat) :
    ∃ q c n k yd : Nat, c ≤ 3 ∧ n ≤ 24 ∧ k ≤ 3 ∧
      absYearDay days = (400 * q + 100 * c + 4 * n + k, yd) ∧
      days = 146097 * q + 36524 * c + 1461 * n + 365 * k + yd ∧
      (yd < 365 ∨ (yd = 365 ∧ k = 3 ∧ (n < 24 ∨ c = 3))) := by
  simp only [absYearDay, daysPer400Years, daysPer100Years, daysPer4Years,
    Nat.shiftRight_eq_div_pow]
  generalize hq : days / (365 * 400 + 97) = q
  generalize hd1 : days - (365 * 400 + 97) * q = d1
  have hd1b : d1 < 146097 := by omega
  generalize hc0 : d1 / (365 * 100 + 24) = c0
  have hc0b : c0 ≤ 4 := by omega
  generalize hc : c0 - c0 / 2 ^ 2 = c
  have hcb : c ≤ 3 := by omega
  generalize hd2 : d1 - (365 * 100 + 24) * c = d2
  have hd2b : d2 ≤ 36524 ∧ (c < 3 → d2 < 36524) := by omega
  generalize hn : d2 / (365 * 4 + 1) = n
  have hnb : n ≤ 24 := by omega
  generalize hd3 : d2 - (365 * 4 + 1) * n = d3
  have hd3b : d3 < 1461 := by omega
  generalize hk0 : d3 / 365 = k0
  have hk0b : k0 ≤ 4 := by omega
  generalize hk : k0 - k0 / 2 ^ 2 = k
  have hkb : k ≤ 3 := by omega
  refine ⟨q, c, n, k, d3 - 365 * k, hcb, hnb, hkb, rfl, by omega, ?_⟩
  omega

theorem absYearDay_spec (days : Nat) :
    daysSinceEpoch (((absYearDay days).1 : Int) + absoluteZeroYear) + (absYearDay days).2 = days ∧
    (absYearDay days).2 <
      (if isLeap (((absYearDay days).1 : Int) + absoluteZeroYear) = true then 366 else 365) := by
  obtain ⟨q, c, n, k, yd, hc, hn, hk, he, hd, hy⟩ := absYearDay_decomp days
  rw [he]
  simp only [daysSinceEpoch_ofNat, isLeap_ofNat]
  constructor
  · omega
  · split <;> omega

set_option maxRecDepth 100000 in
theorem ydayMonthDay_table :
    ∀ leap : Bool, ∀ yd : Nat, yd < 366 → (leap = true ∨ yd < 365) →
      (1 ≤ (ydayMonthDay leap yd).1 ∧ (ydayMonthDay leap yd).1 ≤ 12 ∧
        1 ≤ (ydayMonthDay leap yd).2 ∧
        (ydayMonthDay leap yd).2 ≤ monthLength leap (ydayMonthDay leap yd).1 ∧
        dayOfYear leap (ydayMonthDay leap yd).1 (ydayMonthDay leap yd).2 = yd) := by
  decide

set_option maxRecDepth 100000 in
theorem dayOfYear_table :
    ∀ leap : Bool, ∀ m : Nat, m < 13 → ∀ d : Nat, d < 32 →
      (1 ≤ m ∧ 1 ≤ d ∧ d ≤ monthLength leap m) →
      (ydayMonthDay leap (dayOfYear leap m d) = (m, d) ∧
        dayOfYear leap m d < (if leap = true then 366 else 365)) := by
  decide

theorem daysSinceEpoch_lt (y1 : Int) (h1 : absoluteZeroYear ≤ y1) (k : Nat) :
    daysSinceEpoch y1 + (if isLeap y1 = true then 366 else 365) ≤ daysSinceEpoch (y1 + 1 + k) := by
  induction k with
  | zero => simp [daysSinceEpoch_succ y1 h1]
  | succ k ih =>
    have h2 : y1 + 1 + ((k + 1 : Nat) : Int) = (y1 + 1 + k) + 1 := by push_cast; ring
    rw [h2, daysSinceEpoch_succ (y1 + 1 + k) (by omega)]
    omega

theorem daysSinceEpoch_next_le (y1 y2 : Int) (h1 : absoluteZeroYear ≤ y1) (h : y1 < y2) :
    daysSinceEpoch (y1 + 1) ≤ daysSinceEpoch y2 := by
  obtain ⟨k, hk⟩ : ∃ k : Nat, y2 = y1 + 1 + k := ⟨(y2 - y1 - 1).toNat, by omega⟩
  rw [hk, daysSinceEpoch_succ y1 h1]
  exact daysSinceEpoch_lt y1 h1 k

theorem monthLength_le (leap : Bool) (m : Nat) : monthLength leap m ≤ 31 := by
  unfold monthLength
  split <;> try omega
  split <;> omega

theorem monthLength_pos (leap : Bool) (m d : Nat) (h1 : 1 ≤ d) (h2 : d ≤ monthLength leap m) :
    1 ≤ m ∧ m ≤ 12 := by
  unfold monthLength at h2
  split at h2 <;> omega

/-- A day of the year lies inside its year. -/
theorem daysOfCivil_bounds (y : Int) (m d : Nat) (hy : absoluteZeroYear ≤ y) (h1 : 1 ≤ d)
    (h2 : d ≤ monthLength (isLeap y) m) :
    daysSinceEpoch y ≤ daysOfCivil y m d ∧ daysOfCivil y m d < daysSinceEpoch (y + 1) := by
  have hm := monthLength_pos _ m d h1 h2
  have hd : d ≤ 31 := le_trans h2 (monthLength_le _ _)
  have ht := (dayOfYear_table (isLeap y) m (by omega) d (by omega) ⟨hm.1, h1, h2⟩).2
  rw [daysSinceEpoch_succ y hy]
  unfold daysOfCivil
  omega

/-- The civil date of a day number is a valid date of the calendar whose day
number is the one given. -/
theorem civilOfDays_spec (n : Nat) :
    absoluteZeroYear ≤ (civilOfDays n).1 ∧
    1 ≤ (civilOfDays n).2.1 ∧ (civilOfDays n).2.1 ≤ 12 ∧
    1 ≤ (civilOfDays n).2.2 ∧
    (civilOfDays n).2.2 ≤ monthLength (isLeap (civilOfDays n).1) (civilOfDays n).2.1 ∧
    daysOfCivil (civilOfDays n).1 (civilOfDays n).2.1 (civilOfDays n).2.2 = n ∧
    daysSinceEpoch (civilOfDays n).1 ≤ n ∧ n < daysSinceEpoch ((civilOfDays n).1 + 1) := by
  have hs := absYearDay_spec n
  have hy : absoluteZeroYear ≤ ((absYearDay n).1 : Int) + absoluteZeroYear := by omega
  have ht := ydayMonthDay_table (isLeap (((absYearDay n).1 : Int) + absoluteZeroYear))
    (absYearDay n).2 (by have := hs.2; split at this <;> omega)
    (by have := hs.2; split at this
        · left; assumption
        · right; omega)
  have hsucc := daysSinceEpoch_succ _ hy
  simp only [civilOfDays, daysOfCivil]
  refine ⟨hy, ht.1, ht.2.1, ht.2.2.1, ht.2.2.2.1, ?_, ?_, ?_⟩
  · rw [ht.2.2.2.2]; exact hs.1
  · omega
  · rw [hsucc]; have := hs.2; omega

/-- The day number of a valid date has that date as its civil date. -/
theorem civilOfDays_daysOfCivil (y : Int) (m d : Nat) (hy : absoluteZeroYear ≤ y) (h1 : 1 ≤ d)
    (h2 : d ≤ monthLength (isLeap y) m) :
    civilOfDays (daysOfCivil y m d) = (y, m, d) := by
  have hb := daysOfCivil_bounds y m d hy h1 h2
  have hs := civilOfDays_spec (daysOfCivil y m d)
  obtain ⟨hy1, -, -, -, -, hday, hlo, hhi⟩ := hs
  have hyear : (civilOfDays (daysOfCivil y m d)).1 = y := by
    rcases lt_trichotomy (civilOfDays (daysOfCivil y m d)).1 y with h | h | h
    · have := daysSinceEpoch_next_le _ y hy1 h
      omega
    · exact h
    · have := daysSinceEpoch_next_le y _ hy h
      omega
  have hm := monthLength_pos _ m d h1 h2
  have hd : d ≤ 31 := le_trans h2 (monthLength_le _ _)
  have ht := (dayOfYear_table (isLeap y) m (by omega) d (by omega) ⟨hm.1, h1, h2⟩).1
  have hyd : (absYearDay (daysOfCivil y m d)).2 = dayOfYear (isLeap y) m d := by
    have h3 := absYearDay_spec (daysOfCivil y m d)
    have h4 : ((absYearDay (daysOfCivil y m d)).1 : Int) + absoluteZeroYear = y := hyear
    rw [h4] at h3
    have := h3.1
    unfold daysOfCivil at this ⊢
    omega
  have h4 : ((absYearDay (daysOfCivil y m d)).1 : Int) + absoluteZeroYear = y := hyear
  simp only [civilOfDays, h4, hyd, ht]

/-! ### `float64` rounding -/

theorem roundHalfEven_intCast (z : Int) : roundHalfEven (z : ℚ) = z := by
  simp [roundHalfEven]

theorem roundHalfEven_nonneg (x : ℚ) (hx : 0 ≤ x) : 0 ≤ roundHalfEven x := by
  have hf : 0 ≤ ⌊x⌋ := Int.floor_nonneg.mpr hx
  unfold roundHalfEven
  simp only
  split
  · exact hf
  · split
    · omega
    · split <;> omega

theorem roundFloat64_nonneg (x : ℚ) (hx : 0 ≤ x) : 0 ≤ roundFloat64 x := by
  unfold roundFloat64
  split
  · exact le_refl _
  · have hulp : (0 : ℚ) < 2 ^ (Int.log 2 |x| - 52) := zpow_pos (by norm_num) _
    have h1 : 0 ≤ roundHalfEven (x / 2 ^ (Int.log 2 |x| - 52)) :=
      roundHalfEven_nonneg _ (div_nonneg hx hulp.le)
    have h2 : (0 : ℚ) ≤ (roundHalfEven (x / 2 ^ (Int.log 2 |x| - 52)) : ℚ) := by exact_mod_cast h1
    exact mul_nonneg h2 hulp.le

/-- Integers below `2^53` are `float64` values. -/
theorem roundFloat64_natCast (n : Nat) (hn : n < 2 ^ 53) : roundFloat64 (n : ℚ) = n := by
  unfold roundFloat64
  by_cases h0 : (n : ℚ) = 0
  · simp [h0]
  · rw [if_neg h0]
    have hpos : (0 : ℚ) < n := lt_of_le_of_ne (Nat.cast_nonneg n) (Ne.symm h0)
    have habs : |(n : ℚ)| = n := abs_of_pos hpos
    rw [habs]
    rw [Int.log_natCast]
    have hn0 : n ≠ 0 := by
      intro h; apply h0; simp [h]
    have hj : Nat.log 2 n < 53 := Nat.log_lt_of_lt_pow hn0 hn
    generalize Nat.log 2 n = j at hj
    have hu : (2 : ℚ) ^ ((j : Int) - 52) = ((2 : ℚ) ^ (52 - j))⁻¹ := by
      rw [← zpow_natCast, ← zpow_neg]
      congr 1
      omega
    have hq : (n : ℚ) / ((2 : ℚ) ^ (52 - j))⁻¹ = (((n * 2 ^ (52 - j) : Nat) : Int) : ℚ) := by
      push_cast
      field_simp
    simp only
    rw [hu, hq, roundHalfEven_intCast]
    push_cast
    field_simp

theorem roundFloat64_zero : roundFloat64 0 = 0 := by
  simp [roundFloat64]

theorem truncToInt_nonneg (x : ℚ) (hx : 0 ≤ x) : 0 ≤ truncToInt x := by
  unfold truncToInt
  rw [if_pos hx]
  exact Int.floor_nonneg.mpr hx

theorem truncToInt_natCast (n : Nat) : truncToInt (n : ℚ) = n := by
  unfold truncToInt
  rw [if_pos (Nat.cast_nonneg n)]
  simp

theorem Hours_nonneg (d : Int) (hd : 0 ≤ d) : 0 ≤ Duration.Hours d := by
  unfold Duration.Hours
  apply roundFloat64_nonneg
  have h1 : (0 : ℚ) ≤ ((Int.tdiv d Hour : Int) : ℚ) := by
    exact_mod_cast Int.tdiv_nonneg hd (by unfold Hour; omega)
  have h2 : (0 : ℚ) ≤ ((Int.tmod d Hour : Int) : ℚ) := by
    exact_mod_cast Int.tmod_nonneg Hour hd
  exact add_nonneg (roundFloat64_nonneg _ h1)
    (roundFloat64_nonneg _ (div_nonneg (roundFloat64_nonneg _ h2) (by norm_num)))

/-- The `Hours` of a whole number of days is exact. -/
theorem Hours_whole_days (k : Nat) (hk : k ≤ 100000) :
    Duration.Hours ((k : Int) * 86400000000000) = ((24 * k : Nat) : ℚ) := by
  unfold Duration.Hours
  have h1 : Int.tdiv ((k : Int) * 86400000000000) Hour = ((24 * k : Nat) : Int) := by
    unfold Hour
    rw [Int.tdiv_eq_ediv (by omega) (by omega)]
    omega
  have h2 : Int.tmod ((k : Int) * 86400000000000) Hour = 0 := by
    unfold Hour
    rw [Int.tmod_eq_emod (by omega) (by omega)]
    omega
  rw [h1, h2]
  have hb : 24 * k < 2 ^ 53 := by
    have : (2 : Nat) ^ 53 = 9007199254740992 := by norm_num
    omega
  simp only [Int.cast_natCast, Int.cast_zero, roundFloat64_zero, zero_div, add_zero]
  rw [roundFloat64_natCast _ hb, roundFloat64_natCast _ hb]

/-! ### Times and dates -/

theorem norm_id (hi lo base : Int) (h0 : 0 ≤ lo) (h1 : lo < base) : norm hi lo base = (hi, lo) := by
  simp [norm, not_lt.mpr h0, not_le.mpr h1]

/-- The value of `Date` at midnight of a month from 1 to 12 and a day from 1 on. -/
theorem Date_midnight (y : Int) (m d : Nat) (hm1 : 1 ≤ m) (hm2 : m ≤ 12) (hd : 1 ≤ d) :
    Date y m d 0 0 0 0 = { wall := daysOfCivil y m d * nanosPerDay, offset := 0 } := by
  have e1 : norm y ((m : Int) - 1) 12 = (y, (m : Int) - 1) := norm_id _ _ _ (by omega) (by omega)
  have e2 : norm 0 0 1000000000 = (0, 0) := norm_id _ _ _ (by omega) (by omega)
  have e3 : norm 0 0 60 = (0, 0) := norm_id _ _ _ (by omega) (by omega)
  have e4 : norm (d : Int) 0 24 = ((d : Int), 0) := norm_id _ _ _ (by omega) (by omega)
  have e5 : ((m : Int) - 1 + 1 - 1).toNat = m - 1 := by omega
  simp only [Date, e1, e2, e3, e4, e5, daysOfCivil, dayOfYear, nanosPerDay]
  congr 1
  by_cases hl : isLeap y = true ∧ (m : Int) - 1 + 1 ≥ 3
  · have hl2 : isLeap y = true ∧ 3 ≤ m := ⟨hl.1, by omega⟩
    rw [if_pos hl, if_pos hl2]
    omega
  · have hl2 : ¬ (isLeap y = true ∧ 3 ≤ m) := by
      intro h; exact hl ⟨h.1, by omega⟩
    rw [if_neg hl, if_neg hl2]
    omega

/-- The day number of a time in UTC. -/
theorem abs_div_of_utc (t : Time) (h : t.offset = 0) :
    t.abs / secondsPerDay = t.wall / nanosPerDay := by
  unfold Time.abs secondsPerDay nanosPerDay nanosPerSecond
  rw [h]
  simp only [add_zero, Int.toNat_ofNat]
  omega

theorem Time.civil_eq (t : Time) :
    t.Year = (civilOfDays (t.abs / secondsPerDay)).1 ∧
    t.Month = ((civilOfDays (t.abs / secondsPerDay)).2.1 : Int) ∧
    t.Day = ((civilOfDays (t.abs / secondsPerDay)).2.2 : Int) :=
  ⟨rfl, rfl, rfl⟩

/-- A date that is not February 29 exists in every year. -/
theorem monthLength_any (l1 l2 : Bool) (m d : Nat) (h : d ≤ monthLength l1 m)
    (hfeb : ¬ (m = 2 ∧ d = 29)) : d ≤ monthLength l2 m := by
  unfold monthLength at *
  split at h <;> try omega
  cases l1 <;> cases l2 <;> simp at * <;> omega

/-- The day of the year moves by at most one between a leap and a common year. -/
theorem dayOfYear_leap_le (l1 l2 : Bool) (m d : Nat) :
    dayOfYear l1 m d ≤ dayOfYear l2 m d + 1 ∧
    (l1 = false → dayOfYear l1 m d ≤ dayOfYear l2 m d) := by
  unfold dayOfYear
  cases l1 <;> cases l2 <;> simp <;> split <;> omega

theorem isLeap_succ (y : Int) (h : isLeap y = true) : isLeap (y + 1) = false := by
  have h1 := (isLeap_iff y).mp h
  by_contra h2
  have h3 := (isLeap_iff (y + 1)).mp (by simpa using h2)
  omega

/-! ### The birthday message -/

theorem month_day_valid (t : Time) :
    ∃ m d : Nat, t.Month = (m : Int) ∧ t.Day = (d : Int) ∧ 1 ≤ m ∧ m ≤ 12 ∧ 1 ≤ d ∧
      d ≤ monthLength (isLeap t.Year) m := by
  have hs := civilOfDays_spec (t.abs / secondsPerDay)
  exact ⟨_, _, rfl, rfl, hs.2.1, hs.2.2.1, hs.2.2.2.1, hs.2.2.2.2.1⟩

theorem message_ne (username : String) (n : String) :
    "Hello, " ++ username ++ "! Your birthday is in " ++ n ++ " day(s)" ≠
      "Hello, " ++ username ++ "! Happy birthday!" := by
  intro h
  have h1 := congrArg String.data h
  simp only [String.data_append, List.append_assoc] at h1
  have h2 := List.append_cancel_left (List.append_cancel_left h1)
  simp at h2

/-- C3: `createBirthdayMessage` returns "Hello, <username>! Happy birthday!"
exactly when `dob` and `today` have the same month and the same day of the
month; otherwise it returns "Hello, <username>! Your birthday is in N day(s)"
for an integer `N`. Birth 1990-04-20 with today 2024-04-20 (at any time of the
day) gives the happy-birthday message. -/
theorem createBirthdayMessage_birthday (username : String) (dob today : Time) :
    (createBirthdayMessage username dob today = "Hello, " ++ username ++ "! Happy birthday!" ↔
      (dob.Month = today.Month ∧ dob.Day = today.Day)) ∧
    (¬ (dob.Month = today.Month ∧ dob.Day = today.Day) →
      ∃ N : Int, createBirthdayMessage username dob today =
        "Hello, " ++ username ++ "! Your birthday is in " ++ toString N ++ " day(s)") ∧
    createBirthdayMessage username (Date 1990 4 20 0 0 0 0) (Date 2024 4 20 0 0 0 0) =
      "Hello, " ++ username ++ "! Happy birthday!" ∧
    createBirthdayMessage username (Date 1990 4 20 0 0 0 0) (Date 2024 4 20 17 30 0 0) =
      "Hello, " ++ username ++ "! Happy birthday!" := by
  refine ⟨⟨?_, ?_⟩, ?_, ?_, ?_⟩
  · intro h
    by_contra hne
    unfold createBirthdayMessage at h
    rw [if_neg hne] at h
    exact message_ne _ _ h
  · intro h
    unfold createBirthdayMessage
    rw [if_pos h]
  · intro hne
    exact ⟨daysUntil dob today, by unfold createBirthdayMessage; rw [if_neg hne]⟩
  · unfold createBirthdayMessage
    rw [if_pos (by decide)]
  · unfold createBirthdayMessage
    rw [if_pos (by decide)]

/-- Next year's occurrence is never before `today` (in UTC). -/
theorem next_year_after (dob today : Time) (hutc : today.offset = 0) :
    today.wall < (Date (today.Year + 1) dob.Month dob.Day 0 0 0 0).wall := by
  obtain ⟨m, d, hm, hd, hm1, hm2, hd1, -⟩ := month_day_valid dob
  rw [hm, hd, Date_midnight _ m d hm1 hm2 hd1]
  have hs := civilOfDays_spec (today.abs / secondsPerDay)
  have hy : today.Year = (civilOfDays (today.abs / secondsPerDay)).1 := rfl
  rw [← hy, abs_div_of_utc today hutc] at hs
  obtain ⟨hA, -, -, -, -, -, -, hhi⟩ := hs
  simp only [daysOfCivil, nanosPerDay] at *
  generalize daysSinceEpoch (today.Year + 1) = e at *
  generalize dayOfYear (isLeap (today.Year + 1)) m d = f at *
  have : today.wall < (today.wall / 86400000000000 + 1) * 86400000000000 := by omega
  have h2 : (today.wall / 86400000000000 + 1) * 86400000000000 ≤ (e + f) * 86400000000000 :=
    Nat.mul_le_mul_right _ (by omega)
  omega

theorem nextBirthday_ge (dob today : Time) (hutc : today.offset = 0) :
    today.wall ≤ (nextBirthday dob today).wall := by
  unfold nextBirthday
  simp only
  split
  · exact le_of_lt (next_year_after dob today hutc)
  · rename_i h
    simpa [Time.Before] using h

theorem Sub_nonneg (t u : Time) (h : u.wall ≤ t.wall) : 0 ≤ t.Sub u := by
  unfold Time.Sub minDuration maxDuration
  simp only
  split
  · omega
  · split <;> omega

theorem daysUntil_nonneg_of_utc (dob today : Time) (hutc : today.offset = 0) :
    0 ≤ daysUntil dob today := by
  unfold daysUntil
  apply truncToInt_nonneg
  apply roundFloat64_nonneg
  exact div_nonneg (Hours_nonneg _ (Sub_nonneg _ _ (nextBirthday_ge dob today hutc))) (by norm_num)

/-- C4: for a reference time `today` in UTC whose month and day differ from
those of `dob`, the day count in the message of `createBirthdayMessage` is not
negative and the next-birthday instant it counts to is not before `today`,
whatever `dob` is (February 29 included). -/
theorem daysUntil_nonneg (username : String) (dob today : Time) (hutc : today.offset = 0)
    (hdiff : ¬ (dob.Month = today.Month ∧ dob.Day = today.Day)) :
    createBirthdayMessage username dob today =
      "Hello, " ++ username ++ "! Your birthday is in " ++ toString (daysUntil dob today) ++
        " day(s)" ∧
    0 ≤ daysUntil dob today ∧
    (nextBirthday dob today).Before today = false ∧
    today.wall ≤ (nextBirthday dob today).wall := by
  refine ⟨by unfold createBirthdayMessage; rw [if_neg hdiff], daysUntil_nonneg_of_utc dob today hutc,
    ?_, nextBirthday_ge dob today hutc⟩
  have := nextBirthday_ge dob today hutc
  simp [Time.Before]
  exact this

/-- A birth date of February 29 and a common year: on 2023-03-01 at 10:00
UTC the candidate of the year (March 1, 00:00) has passed and the count goes to
2024-02-29. -/
theorem daysUntil_nonneg_witness :
    (Date 2023 3 1 10 0 0 0).offset = 0 ∧
    ¬ ((Date 1992 2 29 0 0 0 0).Month = (Date 2023 3 1 10 0 0 0).Month ∧
        (Date 1992 2 29 0 0 0 0).Day = (Date 2023 3 1 10 0 0 0).Day) ∧
    0 ≤ daysUntil (Date 1992 2 29 0 0 0 0) (Date 2023 3 1 10 0 0 0) ∧
    (nextBirthday (Date 1992 2 29 0 0 0 0) (Date 2023 3 1 10 0 0 0)).Before
      (Date 2023 3 1 10 0 0 0) = false :=
  ⟨by decide, by decide,
    (daysUntil_nonneg "Alice" (Date 1992 2 29 0 0 0 0) (Date 2023 3 1 10 0 0 0) (by decide)
      (by decide)).2.1,
    (daysUntil_nonneg "Alice" (Date 1992 2 29 0 0 0 0) (Date 2023 3 1 10 0 0 0) (by decide)
      (by decide)).2.2.1⟩

/-! ### The exact day count -/

/-- A whole number of days between `today` and the next birthday is what
`daysUntil` returns. -/
theorem daysUntil_whole_days (dob today : Time) (k : Nat) (hk : k ≤ 100000)
    (h : (nextBirthday dob today).wall = today.wall + k * nanosPerDay) :
    daysUntil dob today = k := by
  unfold daysUntil
  have hsub : (nextBirthday dob today).Sub today = (k : Int) * 86400000000000 := by
    unfold Time.Sub minDuration maxDuration
    rw [h]
    unfold nanosPerDay
    simp only
    have e : ((today.wall + k * 86400000000000 : Nat) : Int) - (today.wall : Int)
        = (k : Int) * 86400000000000 := by push_cast; ring
    rw [e]
    split
    · omega
    · split <;> omega
  rw [hsub, Hours_whole_days k hk]
  have e : (((24 * k : Nat) : ℚ)) / 24 = (k : ℚ) := by
    push_cast; field_simp
  rw [e, roundFloat64_natCast k (by
    have : (2 : Nat) ^ 53 = 9007199254740992 := by norm_num
    omega), truncToInt_natCast]

/-- Civil date of the instant `j` days after a midnight in UTC. -/
theorem addDays_civil (today : Time) (hutc : today.offset = 0) (hmid : today.wall % nanosPerDay = 0)
    (j : Nat) :
    (today.addDays j).Year = (civilOfDays (today.wall / nanosPerDay + j)).1 ∧
    (today.addDays j).Month = ((civilOfDays (today.wall / nanosPerDay + j)).2.1 : Int) ∧
    (today.addDays j).Day = ((civilOfDays (today.wall / nanosPerDay + j)).2.2 : Int) := by
  have h1 : (today.addDays j).abs / secondsPerDay = today.wall / nanosPerDay + j := by
    rw [abs_div_of_utc _ (by simpa [Time.addDays] using hutc)]
    unfold Time.addDays nanosPerDay at *
    simp only
    omega
  have := Time.civil_eq (today.addDays j)
  rw [h1] at this
  exact this

/-- Dates of an earlier year come before dates of a later year. -/
theorem daysOfCivil_lt_of_year_lt (y1 y2 : Int) (m1 d1 m2 d2 : Nat) (hA : absoluteZeroYear ≤ y1)
    (h1 : 1 ≤ d1) (h2 : d1 ≤ monthLength (isLeap y1) m1) (h : y1 < y2) :
    daysOfCivil y1 m1 d1 < daysOfCivil y2 m2 d2 := by
  have hb := daysOfCivil_bounds y1 m1 d1 hA h1 h2
  have hn := daysSinceEpoch_next_le y1 y2 hA h
  have : daysSinceEpoch y2 ≤ daysOfCivil y2 m2 d2 := by unfold daysOfCivil; omega
  omega

/-- If no occurrence of the date `m`/`d` lies strictly between day `n` and the
later occurrence `c`, then `c - n` is the least positive number of days after
which the calendar shows `m`/`d`. -/
theorem least_occurrence (n : Nat) (m d : Nat) (yc : Int) (hA : absoluteZeroYear ≤ yc)
    (h1 : 1 ≤ d) (h2 : d ≤ monthLength (isLeap yc) m)
    (hmin : ∀ y : Int, absoluteZeroYear ≤ y →
      daysOfCivil y m d ≤ n ∨ daysOfCivil yc m d ≤ daysOfCivil y m d) :
    civilOfDays (daysOfCivil yc m d) = (yc, m, d) ∧
    ∀ j : Nat, 1 ≤ j → n + j < daysOfCivil yc m d →
      ¬ ((civilOfDays (n + j)).2.1 = m ∧ (civilOfDays (n + j)).2.2 = d) := by
  refine ⟨civilOfDays_daysOfCivil yc m d hA h1 h2, ?_⟩
  intro j hj hlt hmd
  have hs := civilOfDays_spec (n + j)
  obtain ⟨hA1, -, -, -, -, hday, -, -⟩ := hs
  rw [hmd.1, hmd.2] at hday
  rcases hmin (civilOfDays (n + j)).1 hA1 with h | h <;> omega

/-- C5: for a birth date that is not February 29 and a reference time `today`
at 00:00:00 UTC whose month and day differ from those of `dob`, the day count
`N` in the message of `createBirthdayMessage` is the exact number of calendar
days from today's date to the earliest later date with the month and day of
`dob`: `N` days after `today` the calendar shows that month and day, no earlier
day after `today` does, the date reached lies in the year of `today` if the
occurrence of that year has not passed and in the next year otherwise, and
`1 ≤ N ≤ 365`. -/
theorem daysUntil_exact (username : String) (dob today : Time)
    (hfeb : ¬ (dob.Month = 2 ∧ dob.Day = 29))
    (hutc : today.offset = 0) (hmid : today.wall % nanosPerDay = 0)
    (hdiff : ¬ (dob.Month = today.Month ∧ dob.Day = today.Day)) :
    ∃ N : Nat, daysUntil dob today = (N : Int) ∧
      createBirthdayMessage username dob today =
        "Hello, " ++ username ++ "! Your birthday is in " ++ toString (N : Int) ++ " day(s)" ∧
      1 ≤ N ∧ N ≤ 365 ∧
      nextBirthday dob today = today.addDays N ∧
      (today.addDays N).Month = dob.Month ∧ (today.addDays N).Day = dob.Day ∧
      (today.addDays N).Year =
        (if (Date today.Year dob.Month dob.Day 0 0 0 0).Before today = true then today.Year + 1
          else today.Year) ∧
      ∀ j : Nat, 1 ≤ j → j < N →
        ¬ ((today.addDays j).Month = dob.Month ∧ (today.addDays j).Day = dob.Day) := by
  obtain ⟨m, d, hm, hd, hm1, hm2, hd1, hd2⟩ := month_day_valid dob
  have hfeb1 : ¬ (m = 2 ∧ d = 29) := by
    intro h; apply hfeb; rw [hm, hd, h.1, h.2]; exact ⟨rfl, rfl⟩
  have hvalid : ∀ l : Bool, d ≤ monthLength l m := fun l => monthLength_any _ l m d hd2 hfeb1
  have hs := civilOfDays_spec (today.wall / nanosPerDay)
  have hciv := Time.civil_eq today
  rw [abs_div_of_utc today hutc] at hciv
  obtain ⟨hY, hM, hD⟩ := hciv
  have hwall : today.wall = today.wall / nanosPerDay * nanosPerDay := by
    have := Nat.div_add_mod today.wall nanosPerDay
    rw [hmid, add_zero, Nat.mul_comm] at this
    exact this.symm
  generalize today.wall / nanosPerDay = n at hs hY hM hD hwall
  obtain ⟨hA, -, -, -, -, hday, hlo, hhi⟩ := hs
  rw [← hY] at hA hday hlo hhi
  have hdiff1 : ¬ ((civilOfDays n).2.1 = m ∧ (civilOfDays n).2.2 = d) := by
    intro h; apply hdiff; rw [hm, hd, hM, hD, h.1, h.2]; exact ⟨rfl, rfl⟩
  have hb0 := daysOfCivil_bounds today.Year m d hA hd1 (hvalid _)
  have hb1 := daysOfCivil_bounds (today.Year + 1) m d (by omega) hd1 (hvalid _)
  have hsucc := daysSinceEpoch_succ today.Year hA
  have hne : daysOfCivil today.Year m d ≠ n := by
    intro h
    have hr := civilOfDays_daysOfCivil today.Year m d hA hd1 (hvalid _)
    rw [h] at hr
    apply hdiff1
    rw [hr]
    exact ⟨rfl, rfl⟩
  have hcand0 := Date_midnight today.Year m d hm1 hm2 hd1
  have hcand1 := Date_midnight (today.Year + 1) m d hm1 hm2 hd1
  have hmsg : ∀ N : Nat, daysUntil dob today = (N : Int) →
      createBirthdayMessage username dob today =
        "Hello, " ++ username ++ "! Your birthday is in " ++ toString (N : Int) ++ " day(s)" := by
    intro N hN
    unfold createBirthdayMessage
    rw [if_neg hdiff, hN]
  have hadd : ∀ c : Nat, n ≤ c →
      today.addDays (c - n) = { wall := c * nanosPerDay, offset := 0 } := by
    intro c hc
    unfold Time.addDays
    rw [hutc]
    congr 1
    have e : (c - n) * nanosPerDay + n * nanosPerDay = c * nanosPerDay := by
      rw [← Nat.add_mul]; congr 1; omega
    omega
  have hcivj : ∀ j : Nat, (today.addDays j).Year = (civilOfDays (n + j)).1 ∧
      (today.addDays j).Month = ((civilOfDays (n + j)).2.1 : Int) ∧
      (today.addDays j).Day = ((civilOfDays (n + j)).2.2 : Int) := by
    intro j
    have := addDays_civil today hutc hmid j
    have e : today.wall / nanosPerDay = n := by
      rw [hwall]; unfold nanosPerDay; omega
    rw [e] at this
    exact this
  have hwhole : ∀ c : Nat, n < c → c - n ≤ 365 →
      nextBirthday dob today = { wall := c * nanosPerDay, offset := 0 } →
      daysUntil dob today = ((c - n : Nat) : Int) := by
    intro c hc1 hc2 hnb
    refine daysUntil_whole_days dob today _ (by omega) ?_
    rw [hnb]
    simp only
    have e : (c - n) * nanosPerDay + n * nanosPerDay = c * nanosPerDay := by
      rw [← Nat.add_mul]; congr 1; omega
    omega
  by_cases hbefore : daysOfCivil today.Year m d < n
  · -- the occurrence of this year has passed
    have hB : (Date today.Year dob.Month dob.Day 0 0 0 0).Before today = true := by
      rw [hm, hd, hcand0]
      simp only [Time.Before, decide_eq_true_eq]
      rw [hwall]
      exact Nat.mul_lt_mul_of_pos_right hbefore (by unfold nanosPerDay; omega)
    have hnb : nextBirthday dob today =
        { wall := daysOfCivil (today.Year + 1) m d * nanosPerDay, offset := 0 } := by
      unfold nextBirthday
      simp only [hB, if_true]
      rw [hm, hd, hcand1]
    have hgt : n < daysOfCivil (today.Year + 1) m d := by omega
    have hle : daysOfCivil (today.Year + 1) m d - n ≤ 365 := by
      have key : daysOfCivil (today.Year + 1) m d ≤ daysOfCivil today.Year m d + 366 := by
        have h1 := dayOfYear_leap_le (isLeap (today.Year + 1)) (isLeap today.Year) m d
        have h2 := isLeap_succ today.Year
        unfold daysOfCivil
        rw [hsucc]
        cases hl : isLeap today.Year
        · rw [hl] at h1
          simp only [Bool.false_eq_true, if_false]
          omega
        · have h3 := h1.2 (h2 hl)
          rw [hl] at h3
          simp only [if_true]
          omega
      omega
    have hl := least_occurrence n m d (today.Year + 1) (by omega) hd1 (hvalid _) (by
      intro y hyA
      rcases lt_trichotomy y today.Year with h | h | h
      · left
        have := daysOfCivil_lt_of_year_lt y today.Year m d m d hyA hd1 (hvalid _) h
        omega
      · left; rw [h]; omega
      · right
        rcases eq_or_lt_of_le (show today.Year + 1 ≤ y by omega) with h3 | h3
        · rw [h3]
        · exact le_of_lt
            (daysOfCivil_lt_of_year_lt (today.Year + 1) y m d m d (by omega) hd1 (hvalid _) h3))
    have hN := hwhole _ hgt hle hnb
    have hsum : n + (daysOfCivil (today.Year + 1) m d - n) = daysOfCivil (today.Year + 1) m d := by
      omega
    refine ⟨daysOfCivil (today.Year + 1) m d - n, hN, hmsg _ hN, by omega, hle, ?_, ?_, ?_, ?_, ?_⟩
    · rw [hnb, hadd _ (le_of_lt hgt)]
    · rw [(hcivj _).2.1, hm, hsum, hl.1]
    · rw [(hcivj _).2.2, hd, hsum, hl.1]
    · rw [(hcivj _).1, if_pos hB, hsum, hl.1]
    · intro j hj1 hj2 hmd
      rw [(hcivj j).2.1, (hcivj j).2.2, hm, hd] at hmd
      exact hl.2 j hj1 (by omega) ⟨by exact_mod_cast hmd.1, by exact_mod_cast hmd.2⟩
  · -- the occurrence of this year is still to come
    have hgt : n < daysOfCivil today.Year m d := by omega
    have hB : ¬ ((Date today.Year dob.Month dob.Day 0 0 0 0).Before today = true) := by
      rw [hm, hd, hcand0]
      simp only [Time.Before, decide_eq_true_eq, not_lt]
      rw [hwall]
      exact Nat.mul_le_mul_right _ (le_of_lt hgt)
    have hnb : nextBirthday dob today =
        { wall := daysOfCivil today.Year m d * nanosPerDay, offset := 0 } := by
      unfold nextBirthday
      simp only
      rw [if_neg hB, hm, hd, hcand0]
    have hle : daysOfCivil today.Year m d - n ≤ 365 := by
      rw [hsucc] at hb0
      have := hb0.2
      split at this <;> omega
    have hl := least_occurrence n m d today.Year hA hd1 (hvalid _) (by
      intro y hyA
      rcases lt_trichotomy y today.Year with h | h | h
      · left
        have h3 := daysOfCivil_bounds y m d hyA hd1 (hvalid _)
        have h4 := daysSinceEpoch_next_le y today.Year hyA h
        omega
      · right; rw [h]
      · right
        exact le_of_lt (daysOfCivil_lt_of_year_lt today.Year y m d m d hA hd1 (hvalid _) h))
    have hN := hwhole _ hgt hle hnb
    have hsum : n + (daysOfCivil today.Year m d - n) = daysOfCivil today.Year m d := by omega
    refine ⟨daysOfCivil today.Year m d - n, hN, hmsg _ hN, by omega, hle, ?_, ?_, ?_, ?_, ?_⟩
    · rw [hnb, hadd _ (le_of_lt hgt)]
    · rw [(hcivj _).2.1, hm, hsum, hl.1]
    · rw [(hcivj _).2.2, hd, hsum, hl.1]
    · rw [(hcivj _).1, if_neg hB, hsum, hl.1]
    · intro j hj1 hj2 hmd
      rw [(hcivj j).2.1, (hcivj j).2.2, hm, hd] at hmd
      exact hl.2 j hj1 (by omega) ⟨by exact_mod_cast hmd.1, by exact_mod_cast hmd.2⟩

/-- Birth 1990-04-20: on 2024-04-19 the count is 1, on 2024-04-21 it is
364 (to 2025-04-20). -/
theorem daysUntil_exact_witness :
    (¬ ((Date 1990 4 20 0 0 0 0).Month = 2 ∧ (Date 1990 4 20 0 0 0 0).Day = 29) ∧
      (Date 2024 4 19 0 0 0 0).offset = 0 ∧
      (Date 2024 4 19 0 0 0 0).wall % nanosPerDay = 0 ∧
      ¬ ((Date 1990 4 20 0 0 0 0).Month = (Date 2024 4 19 0 0 0 0).Month ∧
          (Date 1990 4 20 0 0 0 0).Day = (Date 2024 4 19 0 0 0 0).Day)) ∧
    (∃ N : Nat, daysUntil (Date 1990 4 20 0 0 0 0) (Date 2024 4 19 0 0 0 0) = (N : Int) ∧
      1 ≤ N ∧ N ≤ 365) ∧
    daysUntil (Date 1990 4 20 0 0 0 0) (Date 2024 4 19 0 0 0 0) = 1 ∧
    daysUntil (Date 1990 4 20 0 0 0 0) (Date 2024 4 21 0 0 0 0) = 364 ∧
    createBirthdayMessage "Alice" (Date 1990 4 20 0 0 0 0) (Date 2024 4 19 0 0 0 0) =
      "Hello, Alice! Your birthday is in 1 day(s)" := by
  have h1 : daysUntil (Date 1990 4 20 0 0 0 0) (Date 2024 4 19 0 0 0 0) = ((1 : Nat) : Int) :=
    daysUntil_whole_days _ _ 1 (by decide) (by decide)
  have h2 : daysUntil (Date 1990 4 20 0 0 0 0) (Date 2024 4 21 0 0 0 0) = ((364 : Nat) : Int) :=
    daysUntil_whole_days _ _ 364 (by decide) (by decide)
  refine ⟨⟨by decide, by decide, by decide, by decide⟩, ?_, h1, h2, ?_⟩
  · obtain ⟨N, hN, -, hN1, hN2, -⟩ :=
      daysUntil_exact "Alice" (Date 1990 4 20 0 0 0 0) (Date 2024 4 19 0 0 0 0)
        (by decide) (by decide) (by decide) (by decide)
    exact ⟨N, hN, hN1, hN2⟩
  · unfold createBirthdayMessage
    rw [if_neg (by decide), h1]
    decide

/-! ### Parsing dates -/

theorem digitVal_eq (c : Char) (h : isDecimalDigit c) : digitVal c = (decimalValue c : Int) := by
  have h1 : 48 ≤ c.toNat := h.1
  unfold digitVal decimalValue
  have : '0'.toNat = 48 := rfl
  omega

theorem decimalValue_le (c : Char) (h : isDecimalDigit c) : decimalValue c ≤ 9 := by
  have h1 : c.toNat ≤ 57 := h.2
  unfold decimalValue
  omega

theorem digit_ne_sign (c : Char) (h : isDecimalDigit c) : c ≠ '-' ∧ c ≠ '+' := by
  constructor
  · rintro rfl
    exact absurd h.1 (by decide)
  · rintro rfl
    exact absurd h.1 (by decide)

theorem skip_one (c : Char) (hc : c ≠ ' ') (v rest : List Char) :
    skip 2 v [c] = some rest ↔ v = c :: rest := by
  cases v with
  | nil => simp [skip, hc]
  | cons a t =>
    by_cases h : a = c
    · subst h; simp [skip, hc]
    · simp [skip, hc, h]

theorem skip_nil (v : List Char) : skip 1 v [] = some v := by
  simp [skip]

theorem getnum_fixed (v rest : List Char) (x : Int) :
    getnum v true = some (x, rest) ↔
      ∃ a b : Char, v = a :: b :: rest ∧ isDecimalDigit a ∧ isDecimalDigit b ∧
        x = ((10 * decimalValue a + decimalValue b : Nat) : Int) := by
  cases v with
  | nil => simp [getnum, isDigit]
  | cons a t =>
    cases t with
    | nil => simp [getnum, isDigit]
    | cons b r =>
      by_cases ha : isDecimalDigit a
      · by_cases hb : isDecimalDigit b
        · have ha1 := ha
          have hb1 := hb
          unfold isDecimalDigit at ha1 hb1
          simp only [getnum, isDigit, List.get?, ha1, hb1, decide_True, Bool.and_self,
            Bool.not_true, Bool.false_eq_true, if_false, List.getD_cons_zero, List.getD_cons_succ,
            List.drop_succ_cons, List.drop_zero, Option.some.injEq, Prod.mk.injEq,
            digitVal_eq a ha, digitVal_eq b hb]
          constructor
          · rintro ⟨rfl, rfl⟩
            exact ⟨a, b, rfl, ha, hb, by push_cast; ring⟩
          · rintro ⟨a1, b1, h, -, -, hx⟩
            simp only [List.cons.injEq] at h
            obtain ⟨rfl, rfl, rfl⟩ := h
            exact ⟨by rw [hx]; push_cast; ring, rfl⟩
        · have hb1 := hb
          unfold isDecimalDigit at hb1
          have ha1 := ha
          unfold isDecimalDigit at ha1
          simp only [getnum, isDigit, List.get?, ha1, decide_True, Bool.and_self, Bool.not_true,
            Bool.false_eq_true, if_false]
          have : (decide ('0' ≤ b) && decide (b ≤ '9')) = false := by
            simpa using hb1
          simp only [this, Bool.not_false, if_true]
          constructor
          · intro h; cases h
          · rintro ⟨a1, b1, h, -, hb2, -⟩
            simp only [List.cons.injEq] at h
            obtain ⟨rfl, rfl, rfl⟩ := h
            exact absurd hb2 hb
      · have ha1 := ha
        unfold isDecimalDigit at ha1
        have : (decide ('0' ≤ a) && decide (a ≤ '9')) = false := by
          simpa using ha1
        simp only [getnum, isDigit, List.get?, this, Bool.not_false, if_true]
        constructor
        · intro h; cases h
        · rintro ⟨a1, b1, h, ha2, -, -⟩
          simp only [List.cons.injEq] at h
          obtain ⟨rfl, rfl, rfl⟩ := h
          exact absurd ha2 ha

theorem leadingInt_digit (x : Nat) (c : Char) (cs : List Char) (h : isDecimalDigit c) :
    leadingInt x (c :: cs) = leadingInt (x * 10 + decimalValue c) cs := by
  have h1 := h
  unfold isDecimalDigit at h1
  simp [leadingInt, h1, decimalValue]

theorem leadingInt_nondigit (x : Nat) (c : Char) (cs : List Char) (h : ¬ isDecimalDigit c) :
    leadingInt x (c :: cs) = (x, c :: cs) := by
  have h1 := h
  unfold isDecimalDigit at h1
  have : (decide ('0' ≤ c) && decide (c ≤ '9')) = false := by simpa using h1
  simp [leadingInt, this]

theorem atoi_four (a b c d : Char) (ha : isDecimalDigit a) (y : Int) :
    atoi [a, b, c, d] = some y ↔
      (isDecimalDigit b ∧ isDecimalDigit c ∧ isDecimalDigit d ∧
        y = ((1000 * decimalValue a + 100 * decimalValue b + 10 * decimalValue c +
          decimalValue d : Nat) : Int)) := by
  have hs := digit_ne_sign a ha
  simp only [atoi, List.head?, Option.some.injEq, hs.1, hs.2, or_self, if_false,
    leadingInt_digit 0 a _ ha]
  by_cases hb : isDecimalDigit b
  · rw [leadingInt_digit _ b _ hb]
    by_cases hc : isDecimalDigit c
    · rw [leadingInt_digit _ c _ hc]
      by_cases hd : isDecimalDigit d
      · rw [leadingInt_digit _ d _ hd]
        simp only [leadingInt, ne_eq, not_true_eq_false, if_false, Option.some.injEq, hb, hc, hd,
          true_and]
        constructor
        · intro h; rw [← h]; congr 1; ring
        · intro h; rw [h]; congr 1; ring
      · rw [leadingInt_nondigit _ d _ hd]
        simp [hd]
    · rw [leadingInt_nondigit _ c _ hc]
      simp [hc]
  · rw [leadingInt_nondigit _ b _ hb]
    simp [hb]

theorem parseStd_longYear (f f1 : Fields) (v rest : List Char) :
    parseStd .longYear f v = some (f1, rest) ↔
      ∃ a b c d : Char, v = a :: b :: c :: d :: rest ∧
        (isDecimalDigit a ∧ isDecimalDigit b ∧ isDecimalDigit c ∧ isDecimalDigit d) ∧
        f1 = { f with year := ((1000 * decimalValue a + 100 * decimalValue b +
          10 * decimalValue c + decimalValue d : Nat) : Int) } := by
  rcases v with _ | ⟨a, _ | ⟨b, _ | ⟨c, _ | ⟨d, r⟩⟩⟩⟩
  · simp [parseStd]
  · simp [parseStd]
  · simp [parseStd]
  · simp [parseStd]
  · by_cases ha : isDecimalDigit a
    · have ha1 := ha
      unfold isDecimalDigit at ha1
      simp only [parseStd, List.length_cons, isDigit, List.get?, ha1, decide_True, Bool.and_self,
        Bool.not_true, Bool.or_false, List.take_succ_cons, List.take_zero, List.drop_succ_cons,
        List.drop_zero]
      have hlen : ¬ (r.length + 1 + 1 + 1 + 1 < 4) := by omega
      simp only [hlen, decide_False, Bool.false_eq_true, if_false]
      cases hy : atoi [a, b, c, d] with
      | none =>
        constructor
        · intro h; cases h
        · rintro ⟨a1, b1, c1, d1, h, ⟨-, hb, hc, hd⟩, -⟩
          simp only [List.cons.injEq] at h
          obtain ⟨rfl, rfl, rfl, rfl, -⟩ := h
          have := (atoi_four a b c d ha _).mpr ⟨hb, hc, hd, rfl⟩
          rw [hy] at this
          cases this
      | some y =>
        have h4 := (atoi_four a b c d ha y).mp hy
        simp only [Option.some.injEq, Prod.mk.injEq]
        constructor
        · rintro ⟨rfl, rfl⟩
          exact ⟨a, b, c, d, rfl, ⟨ha, h4.1, h4.2.1, h4.2.2.1⟩, by rw [h4.2.2.2]⟩
        · rintro ⟨a1, b1, c1, d1, h, -, hf⟩
          simp only [List.cons.injEq] at h
          obtain ⟨rfl, rfl, rfl, rfl, rfl⟩ := h
          exact ⟨by rw [hf, h4.2.2.2], rfl⟩
    · have ha1 := ha
      unfold isDecimalDigit at ha1
      have : (decide ('0' ≤ a) && decide (a ≤ '9')) = false := by simpa using ha1
      simp only [parseStd, isDigit, List.get?, this, Bool.not_false, Bool.or_true, if_true]
      constructor
      · intro h; cases h
      · rintro ⟨a1, b1, c1, d1, h, ⟨ha2, -⟩, -⟩
        simp only [List.cons.injEq] at h
        obtain ⟨rfl, -⟩ := h
        exact absurd ha2 ha

theorem parseStd_zeroMonth (f f1 : Fields) (v rest : List Char) :
    parseStd .zeroMonth f v = some (f1, rest) ↔
      ∃ a b : Char, v = a :: b :: rest ∧ (isDecimalDigit a ∧ isDecimalDigit b) ∧
        1 ≤ 10 * decimalValue a + decimalValue b ∧ 10 * decimalValue a + decimalValue b ≤ 12 ∧
        f1 = { f with month := ((10 * decimalValue a + decimalValue b : Nat) : Int) } := by
  unfold parseStd
  simp only
  cases hg : getnum v true with
  | none =>
    constructor
    · intro h; cases h
    · rintro ⟨a, b, hv, ⟨ha, hb⟩, -, -, -⟩
      have := (getnum_fixed v rest _).mpr ⟨a, b, hv, ha, hb, rfl⟩
      rw [hg] at this
      cases this
  | some p =>
    obtain ⟨x, r⟩ := p
    obtain ⟨a, b, hv, ha, hb, hx⟩ := (getnum_fixed v r x).mp hg
    subst hv
    subst hx
    simp only
    constructor
    · intro h
      split at h
      · cases h
      · rename_i hr
        simp only [Option.some.injEq, Prod.mk.injEq] at h
        obtain ⟨rfl, rfl⟩ := h
        exact ⟨a, b, rfl, ⟨ha, hb⟩, by omega, by omega, rfl⟩
    · rintro ⟨a1, b1, h, -, h1, h2, hf⟩
      simp only [List.cons.injEq] at h
      obtain ⟨rfl, rfl, rfl⟩ := h
      rw [if_neg (by omega), hf]

theorem parseStd_zeroDay (f f1 : Fields) (v rest : List Char) :
    parseStd .zeroDay f v = some (f1, rest) ↔
      ∃ a b : Char, v = a :: b :: rest ∧ (isDecimalDigit a ∧ isDecimalDigit b) ∧
        f1 = { f with day := ((10 * decimalValue a + decimalValue b : Nat) : Int) } := by
  unfold parseStd
  simp only
  cases hg : getnum v true with
  | none =>
    constructor
    · intro h; cases h
    · rintro ⟨a, b, hv, ⟨ha, hb⟩, -⟩
      have := (getnum_fixed v rest _).mpr ⟨a, b, hv, ha, hb, rfl⟩
      rw [hg] at this
      cases this
  | some p =>
    obtain ⟨x, r⟩ := p
    obtain ⟨a, b, hv, ha, hb, hx⟩ := (getnum_fixed v r x).mp hg
    subst hv
    subst hx
    simp only [Option.some.injEq, Prod.mk.injEq]
    constructor
    · rintro ⟨rfl, rfl⟩
      exact ⟨a, b, rfl, ⟨ha, hb⟩, rfl⟩
    · rintro ⟨a1, b1, h, -, hf⟩
      simp only [List.cons.injEq] at h
      obtain ⟨rfl, rfl, rfl⟩ := h
      exact ⟨hf.symm, rfl⟩

theorem isLeap_natCast (y : Nat) : isLeap (y : Int) = gregorianLeap y := by
  rw [Bool.eq_iff_iff, isLeap_iff]
  simp only [gregorianLeap, decide_eq_true_eq]
  omega

set_option maxRecDepth 100000 in
theorem daysIn_table : ∀ leap : Bool, ∀ m : Nat, m < 13 → 1 ≤ m →
    (if m = 2 ∧ leap = true then 29
      else daysBefore.getD m 0 - daysBefore.getD (m - 1) 0) = monthLength leap m := by
  decide

theorem daysIn_eq (y : Int) (m : Nat) (h1 : 1 ≤ m) (h2 : m ≤ 12) :
    daysIn (m : Int) y = (monthLength (isLeap y) m : Int) := by
  have ht := daysIn_table (isLeap y) m (by omega) h1
  have hmono : daysBefore.getD (m - 1) 0 ≤ daysBefore.getD m 0 := by
    have : ∀ k : Nat, k < 13 → 1 ≤ k → daysBefore.getD (k - 1) 0 ≤ daysBefore.getD k 0 := by
      decide
    exact this m (by omega) h1
  unfold daysIn
  have e1 : (m : Int).toNat = m := by omega
  have e2 : ((m : Int) - 1).toNat = m - 1 := by omega
  rw [e1, e2, ← ht]
  by_cases h : m = 2 ∧ isLeap y = true
  · have h3 : (m : Int) = 2 ∧ isLeap y = true := ⟨by omega, h.2⟩
    rw [if_pos h, if_pos h3]
    rfl
  · have h3 : ¬ ((m : Int) = 2 ∧ isLeap y = true) := by
      intro h4; exact h ⟨by omega, h4.2⟩
    rw [if_neg h, if_neg h3]
    omega

/-- What `time.Parse("2006-01-02", s)` accepts, and what it returns. -/
theorem Parse_layoutDate (s : String) (t : Time) :
    Parse layoutDate s = some t ↔ ∃ y m d : Nat, IsCalendarDate s y m d ∧ t = midnightUTC y m d := by
  have hsk : ∀ v rest : List Char, skip (['-'].length + 1) v ['-'] = some rest ↔ v = '-' :: rest :=
    fun v rest => skip_one '-' (by decide) v rest
  have hsk0 : ∀ v : List Char, skip (([] : List Char).length + 1) v [] = some v := skip_nil
  simp only [Parse, layoutDate, parseChunks, Option.bind_eq_some, hsk, hsk0, Option.some.injEq,
    parseStd_longYear, parseStd_zeroMonth, parseStd_zeroDay, Prod.exists, exists_eq_left']
  constructor
  · rintro ⟨f, rest, ⟨fy, r1, ⟨y1, y2, y3, y4, hv, hyd, hfy⟩, r1a, hr1, fm, r2,
      ⟨m1, m2, hr1b, hmd, hm1, hm2, hfm⟩, r2a, hr2, fd, r3, ⟨d1, d2, hr2b, hdd, hfd⟩, hpair⟩, hfin⟩
    obtain ⟨rfl, rfl⟩ := Prod.mk.inj hpair
    subst hfd hfm hfy hr2b hr2 hr1b hr1
    by_cases hrest : r3 = []
    · subst hrest
      simp only [ne_eq, not_true_eq_false, if_false] at hfin
      have e1 : ¬ (((10 * decimalValue d1 + decimalValue d2 : Nat) : Int) < 0) := by omega
      have e2 : ¬ (((10 * decimalValue m1 + decimalValue m2 : Nat) : Int) < 0) := by omega
      rw [if_neg e1, if_neg e2, daysIn_eq _ _ hm1 hm2] at hfin
      split at hfin
      · cases hfin
      · rename_i hday
        have hd1 : 1 ≤ 10 * decimalValue d1 + decimalValue d2 := by omega
        rw [Date_midnight _ _ _ hm1 hm2 hd1] at hfin
        refine ⟨_, _, _, ⟨y1, y2, y3, y4, m1, m2, d1, d2, hv, hyd, hmd, hdd, rfl, rfl, rfl, hm1, hm2,
          hd1, ?_⟩, ?_⟩
        · rw [← isLeap_natCast]; omega
        · simp only [Option.some.injEq] at hfin
          rw [← hfin]; rfl
    · simp [hrest] at hfin
  · rintro ⟨y, m, d, ⟨y1, y2, y3, y4, m1, m2, d1, d2, hs, hyd, hmd, hdd, hy, hm, hd, hm1, hm2, hd1,
      hd2⟩, ht⟩
    subst hy hm hd
    refine ⟨_, [], ⟨_, _, ⟨y1, y2, y3, y4, hs, hyd, rfl⟩, _, rfl, _, _,
      ⟨m1, m2, rfl, hmd, hm1, hm2, rfl⟩, _, rfl, _, _, ⟨d1, d2, rfl, hdd, rfl⟩, rfl⟩, ?_⟩
    simp only [ne_eq, not_true_eq_false, if_false]
    have e1 : ¬ (((10 * decimalValue d1 + decimalValue d2 : Nat) : Int) < 0) := by omega
    have e2 : ¬ (((10 * decimalValue m1 + decimalValue m2 : Nat) : Int) < 0) := by omega
    rw [if_neg e1, if_neg e2, daysIn_eq _ _ hm1 hm2, isLeap_natCast, if_neg (by omega),
      Date_midnight _ _ _ hm1 hm2 hd1, ht]
    rfl

theorem midnightUTC_civil (y m d : Nat) (h1 : 1 ≤ d) (h2 : d ≤ monthLength (gregorianLeap y) m) :
    (midnightUTC y m d).Year = (y : Int) ∧ (midnightUTC y m d).Month = (m : Int) ∧
      (midnightUTC y m d).Day = (d : Int) ∧ (midnightUTC y m d).wall % nanosPerDay = 0 := by
  have hA : absoluteZeroYear ≤ (y : Int) := by unfold absoluteZeroYear; omega
  rw [← isLeap_natCast] at h2
  have hr := civilOfDays_daysOfCivil (y : Int) m d hA h1 h2
  have hc := Time.civil_eq (midnightUTC y m d)
  have hday : (midnightUTC y m d).abs / secondsPerDay = daysOfCivil (y : Int) m d := by
    rw [abs_div_of_utc _ rfl]
    unfold midnightUTC nanosPerDay
    simp only
    omega
  rw [hday, hr] at hc
  refine ⟨hc.1, hc.2.1, hc.2.2, ?_⟩
  unfold midnightUTC
  simp

/-- C2: `validateDateOfBirth s`, evaluated at the reference time `now`, returns
the invalid-format error exactly when `s` is not a zero-padded `YYYY-MM-DD`
text naming a real date of the Gregorian calendar; for such a text it returns
the future-date error exactly when midnight UTC of that date is strictly after
`now`, and no error otherwise (a date equal to `now` and any old date are
accepted). "not-a-date" gives the format error, "2099-01-01" the future-date
error at any `now` before 2099, and "1990-04-20" is accepted at any `now` from
1990-04-20 on. -/
theorem validateDateOfBirth_spec (s : String) (now : Time) :
    (validateDateOfBirth s now = some "invalid date format. Use YYYY-MM-DD" ↔
      ¬ ∃ y m d : Nat, IsCalendarDate s y m d) ∧
    (∀ y m d : Nat, IsCalendarDate s y m d →
      ((validateDateOfBirth s now = some "date of birth cannot be in the future" ↔
          now.wall < (midnightUTC y m d).wall) ∧
        (validateDateOfBirth s now = none ↔ (midnightUTC y m d).wall ≤ now.wall) ∧
        (midnightUTC y m d).Year = (y : Int) ∧ (midnightUTC y m d).Month = (m : Int) ∧
        (midnightUTC y m d).Day = (d : Int) ∧ (midnightUTC y m d).wall % nanosPerDay = 0)) ∧
    validateDateOfBirth "not-a-date" now = some "invalid date format. Use YYYY-MM-DD" ∧
    (now.wall < (Date 2099 1 1 0 0 0 0).wall →
      validateDateOfBirth "2099-01-01" now = some "date of birth cannot be in the future") ∧
    ((Date 1990 4 20 0 0 0 0).wall ≤ now.wall → validateDateOfBirth "1990-04-20" now = none) := by
  refine ⟨?_, ?_, ?_, ?_, ?_⟩
  · unfold validateDateOfBirth
    cases hp : Parse layoutDate s with
    | none =>
      simp only [true_iff]
      rintro ⟨y, m, d, h⟩
      have := (Parse_layoutDate s _).mpr ⟨y, m, d, h, rfl⟩
      rw [hp] at this
      cases this
    | some t =>
      obtain ⟨y, m, d, h, -⟩ := (Parse_layoutDate s t).mp hp
      simp only
      constructor
      · intro h1
        split at h1
        · exact absurd (Option.some.inj h1) (by decide)
        · cases h1
      · intro h1
        exact absurd ⟨y, m, d, h⟩ h1
  · intro y m d h
    have hp := (Parse_layoutDate s _).mpr ⟨y, m, d, h, rfl⟩
    obtain ⟨y1, y2, y3, y4, m1, m2, d1, d2, -, -, -, -, -, -, -, -, -, hd1, hd2⟩ := h
    refine ⟨?_, ?_, midnightUTC_civil y m d hd1 hd2⟩
    · unfold validateDateOfBirth
      rw [hp]
      simp only [Time.After]
      by_cases hlt : now.wall < (midnightUTC y m d).wall
      · simp [hlt]
      · simp [hlt]
    · unfold validateDateOfBirth
      rw [hp]
      simp only [Time.After]
      by_cases hlt : now.wall < (midnightUTC y m d).wall
      · simp [hlt]
      · simp only [hlt, decide_False, Bool.false_eq_true, if_false, true_iff]
        omega
  · have hp : Parse layoutDate "not-a-date" = none := by decide
    unfold validateDateOfBirth
    rw [hp]
  · intro h
    have hp : Parse layoutDate "2099-01-01" = some (Date 2099 1 1 0 0 0 0) := by decide
    unfold validateDateOfBirth
    rw [hp]
    simp [Time.After, h]
  · intro h
    have hp : Parse layoutDate "1990-04-20" = some (Date 1990 4 20 0 0 0 0) := by decide
    unfold validateDateOfBirth
    rw [hp]
    simp only [Time.After]
    rw [if_neg]
    simp only [decide_eq_true_eq, not_lt]
    exact h

/-! ### Request handlers -/

/-- C6: if the readiness check fails, `putUserHandler` and `getUserHandler`
answer 503 Service Unavailable, whatever the username and body, and issue no
query and no upsert: the only call on the database handle is the ping, and the
stored records are unchanged. -/
theorem unready_service_unavailable {σ : Type} (env : Env σ) (now : Time) (st : σ)
    (username body : String) (h : isDatabaseReady env st = false) :
    ((putUserHandler env now st username body).resp.status = 503 ∧
      (putUserHandler env now st username body).db = st ∧
      (putUserHandler env now st username body).calls = [DBCall.ping]) ∧
    ((getUserHandler env now st username).resp.status = 503 ∧
      (getUserHandler env now st username).db = st ∧
      (getUserHandler env now st username).calls = [DBCall.ping]) := by
  unfold putUserHandler getUserHandler
  simp [h]

/-- A store whose connection is down, holding a record for Alice: both handlers
answer 503 and the record stays. -/
theorem unready_service_unavailable_witness :
    isDatabaseReady downEnv [("Alice", "1990-04-20")] = false ∧
    (putUserHandler downEnv (Date 2024 4 20 12 0 0 0) [("Alice", "1990-04-20")] "Alice"
      "\x7b\"dateOfBirth\":\"1991-05-21\"\x7d").db = [("Alice", "1990-04-20")] ∧
    (getUserHandler downEnv (Date 2024 4 20 12 0 0 0) [("Alice", "1990-04-20")] "Alice").resp.status
      = 503 :=
  ⟨rfl,
    (unready_service_unavailable downEnv (Date 2024 4 20 12 0 0 0) [("Alice", "1990-04-20")] "Alice"
      "\x7b\"dateOfBirth\":\"1991-05-21\"\x7d" rfl).1.2.1,
    (unready_service_unavailable downEnv (Date 2024 4 20 12 0 0 0) [("Alice", "1990-04-20")] "Alice"
      "\x7b\"dateOfBirth\":\"1991-05-21\"\x7d" rfl).2.1⟩

/-- C7: while the store is ready, the outcome of `putUserHandler` is decided by
the first failing step, in this order: empty username, 400 "Missing username
parameter"; username rejected by `validateUsername`, 400; body that does not
decode, 400 "Invalid request body"; date rejected by `validateDateOfBirth`, 400
with that validation's own message; failing upsert, 500; otherwise 204 with no
body. The upsert is issued only when every validation step passes, so a 400
outcome leaves the stored records unchanged. -/
theorem putUserHandler_outcome {σ : Type} (env : Env σ) (now : Time) (st : σ)
    (username body : String) (hready : isDatabaseReady env st = true) :
    (username = "" →
      (putUserHandler env now st username body).resp = ⟨400, .text "Missing username parameter"⟩) ∧
    (username ≠ "" → validateUsername username = false →
      (putUserHandler env now st username body).resp =
        ⟨400, .text "Username must contain only letters"⟩) ∧
    (username ≠ "" → validateUsername username = true → env.decodeUser body = none →
      (putUserHandler env now st username body).resp = ⟨400, .text "Invalid request body"⟩) ∧
    (∀ user msg, username ≠ "" → validateUsername username = true →
      env.decodeUser body = some user → validateDateOfBirth user.DateOfBirth now = some msg →
      ((putUserHandler env now st username body).resp = ⟨400, .text msg⟩ ∧
        (msg = "invalid date format. Use YYYY-MM-DD" ∨
          msg = "date of birth cannot be in the future"))) ∧
    (∀ user, username ≠ "" → validateUsername username = true →
      env.decodeUser body = some user → validateDateOfBirth user.DateOfBirth now = none →
      ((putUserHandler env now st username body).calls =
          [DBCall.ping, DBCall.exec username user.DateOfBirth] ∧
        (putUserHandler env now st username body).db = (env.exec st username user.DateOfBirth).1 ∧
        ((env.exec st username user.DateOfBirth).2 = false →
          (putUserHandler env now st username body).resp.status = 500) ∧
        ((env.exec st username user.DateOfBirth).2 = true →
          (putUserHandler env now st username body).resp = ⟨204, .empty⟩))) ∧
    ((putUserHandler env now st username body).resp.status = 400 →
      ((putUserHandler env now st username body).db = st ∧
        (putUserHandler env now st username body).calls = [DBCall.ping])) ∧
    ((∃ u d, DBCall.exec u d ∈ (putUserHandler env now st username body).calls) →
      (username ≠ "" ∧ validateUsername username = true ∧
        ∃ user, env.decodeUser body = some user ∧
          validateDateOfBirth user.DateOfBirth now = none)) := by
  unfold putUserHandler
  simp only [hready, Bool.not_true, Bool.false_eq_true, if_false]
  by_cases hu : username = ""
  · simp [hu]
  · by_cases hv : validateUsername username = true
    · cases hd : env.decodeUser body with
      | none => simp [hu, hv]
      | some user =>
        cases hdate : validateDateOfBirth user.DateOfBirth now with
        | some msg =>
          have hmsg : msg = "invalid date format. Use YYYY-MM-DD" ∨
              msg = "date of birth cannot be in the future" := by
            unfold validateDateOfBirth at hdate
            split at hdate
            · left; exact (Option.some.inj hdate).symm
            · split at hdate
              · right; exact (Option.some.inj hdate).symm
              · cases hdate
          simp only [hu, hv, hdate, not_false_eq_true, not_true_eq_false, ne_eq, forall_const,
            Bool.true_eq_false, false_implies, true_and, Bool.not_true, Bool.false_eq_true,
            if_false, Option.some.injEq, reduceCtorEq, implies_true, and_true, and_self]
          refine ⟨?_, ?_⟩
          · rintro user1 msg1 rfl h1
            rw [hdate] at h1
            have := Option.some.inj h1
            subst this
            exact ⟨rfl, hmsg⟩
          · simp [hdate]
        | none =>
          cases he : (env.exec st username user.DateOfBirth).2 <;> simp [hu, hv, hdate, he] <;>
            (rintro user1 msg1 rfl h1; rw [hdate] at h1; cases h1)
    · have hv1 : validateUsername username = false := by simpa using hv
      simp [hu, hv1]

/-- The request of `TestPutUserHandler`: username "Alice", body
`\x7b"dateOfBirth":"1990-04-20"\x7d`, an upsert that succeeds: 204. -/
theorem putUserHandler_outcome_witness :
    isDatabaseReady echoEnv [] = true ∧
    (putUserHandler echoEnv (Date 2024 4 20 12 0 0 0) [] "Alice"
      "\x7b\"dateOfBirth\":\"1990-04-20\"\x7d").resp = ⟨204, .empty⟩ :=
  ⟨rfl,
    ((putUserHandler_outcome echoEnv (Date 2024 4 20 12 0 0 0) [] "Alice"
      "\x7b\"dateOfBirth\":\"1990-04-20\"\x7d" rfl).2.2.2.2.1 ⟨"1990-04-20"⟩ (by decide) (by decide)
      (by decide) (by decide)).2.2.2 (by decide)⟩

theorem message_contains_hello (username : String) (dob today : Time) :
    stringsContains (createBirthdayMessage username dob today) ("Hello, " ++ username ++ "!") =
      true := by
  unfold stringsContains
  rw [decide_eq_true_iff]
  unfold createBirthdayMessage
  split
  · refine ⟨[], " Happy birthday!".data, ?_⟩
    simp [String.data_append]
  · refine ⟨[], (" Your birthday is in " ++ toString (daysUntil dob today) ++ " day(s)").data, ?_⟩
    simp [String.data_append]

/-- The success path of `getUserHandler`. -/
theorem getUserHandler_found {σ : Type} (env : Env σ) (now : Time) (st : σ) (username : String)
    (stored : String) (dob : Time)
    (hready : isDatabaseReady env st = true) (hne : username ≠ "")
    (hv : validateUsername username = true)
    (hq : env.queryRow st username = .row stored) (hp : Parse layoutTimestamp stored = some dob) :
    (getUserHandler env now st username).resp =
      ⟨200, .json [("message", createBirthdayMessage username dob now)]⟩ := by
  unfold getUserHandler
  simp only [hready, hne, hv, hq, hp, Bool.not_true, Bool.false_eq_true, if_false]

/-- C8: while the store is ready and the username is non-empty and passes
`validateUsername`, `getUserHandler` answers 404 "User not found" (no greeting)
when the store has no record, 500 when the lookup fails otherwise, 500 when the
stored text does not parse, and otherwise 200 with a payload whose single field
"message" is `createBirthdayMessage username dob now`, which contains
"Hello, <username>!". The store is only queried. -/
theorem getUserHandler_outcome {σ : Type} (env : Env σ) (now : Time) (st : σ) (username : String)
    (hready : isDatabaseReady env st = true) (hne : username ≠ "")
    (hv : validateUsername username = true) :
    (env.queryRow st username = .noRows →
      (getUserHandler env now st username).resp = ⟨404, .text "User not found"⟩) ∧
    (env.queryRow st username = .failure →
      (getUserHandler env now st username).resp.status = 500) ∧
    (∀ stored, env.queryRow st username = .row stored → Parse layoutTimestamp stored = none →
      (getUserHandler env now st username).resp.status = 500) ∧
    (∀ stored dob, env.queryRow st username = .row stored →
      Parse layoutTimestamp stored = some dob →
      ((getUserHandler env now st username).resp =
          ⟨200, .json [("message", createBirthdayMessage username dob now)]⟩ ∧
        stringsContains (createBirthdayMessage username dob now) ("Hello, " ++ username ++ "!"))) ∧
    (getUserHandler env now st username).db = st ∧
    (getUserHandler env now st username).calls = [DBCall.ping, DBCall.query username] := by
  unfold getUserHandler
  simp only [hready, hne, hv, Bool.not_true, Bool.false_eq_true, if_false]
  cases hq : env.queryRow st username with
  | noRows => simp
  | failure => simp
  | row stored =>
    cases hp : Parse layoutTimestamp stored with
    | none =>
      simp only [hp, reduceCtorEq, false_implies, QueryResult.row.injEq, true_and, and_true]
      refine ⟨?_, ?_⟩
      · rintro s1 rfl -; trivial
      · rintro s1 dob1 rfl h; rw [hp] at h; cases h
    | some dob =>
      simp only [hp, reduceCtorEq, false_implies, QueryResult.row.injEq, true_and, and_true]
      refine ⟨?_, ?_⟩
      · rintro s1 rfl h; rw [hp] at h; cases h
      · rintro s1 dob1 rfl h
        rw [hp] at h
        have := Option.some.inj h
        subst this
        exact ⟨rfl, message_contains_hello _ _ _⟩

/-- The data of `TestGetUserHandler`: username "Alice", stored value
1990-04-20T00:00:00Z: 200, and the message contains "Hello, Alice!". -/
theorem getUserHandler_outcome_witness :
    (isDatabaseReady echoEnv [("Alice", "1990-04-20T00:00:00Z")] = true ∧ "Alice" ≠ "" ∧
      validateUsername "Alice" = true) ∧
    (getUserHandler echoEnv (Date 2024 4 19 12 0 0 0) [("Alice", "1990-04-20T00:00:00Z")]
      "Alice").resp =
        ⟨200, .json [("message",
          createBirthdayMessage "Alice" (Date 1990 4 20 0 0 0 0) (Date 2024 4 19 12 0 0 0))]⟩ ∧
    stringsContains
      (createBirthdayMessage "Alice" (Date 1990 4 20 0 0 0 0) (Date 2024 4 19 12 0 0 0))
      ("Hello, " ++ "Alice" ++ "!") :=
  ⟨⟨rfl, by decide, by decide⟩,
    (getUserHandler_outcome echoEnv (Date 2024 4 19 12 0 0 0) [("Alice", "1990-04-20T00:00:00Z")]
      "Alice" rfl (by decide) (by decide)).2.2.2.1 "1990-04-20T00:00:00Z" (Date 1990 4 20 0 0 0 0)
      (by decide) (by decide)⟩

/-! ### Round trip -/

/-- The time-of-day elements of the timestamp layout on the text `T00:00:00Z`. -/
theorem parseChunks_midnight_tail (f : Fields) :
    parseChunks [(['T'], .hour), ([':'], .zeroMinute), ([':'], .zeroSecond)] f
      ['T', '0', '0', ':', '0', '0', ':', '0', '0', 'Z'] =
      some ({ f with hour := 0, min := 0, sec := 0 }, ['Z']) := by
  simp [parseChunks, skip, parseStd, getnum, isDigit, digitVal, commaOrPeriod]

/-- A date that `validateDateOfBirth` accepts, written as the timestamp of its
midnight, parses under the layout of `getUserHandler` to that midnight. -/
theorem Parse_timestamp_of_date (s : String) (y m d : Nat) (h : IsCalendarDate s y m d) :
    Parse layoutTimestamp (s ++ "T00:00:00Z") = some (midnightUTC y m d) := by
  obtain ⟨y1, y2, y3, y4, m1, m2, d1, d2, hs, hyd, hmd, hdd, hy, hm, hd, hm1, hm2, hd1, hd2⟩ := h
  subst hy hm hd
  have hdata : (s ++ "T00:00:00Z").data =
      y1 :: y2 :: y3 :: y4 :: '-' :: m1 :: m2 :: '-' :: d1 :: d2 ::
        ['T', '0', '0', ':', '0', '0', ':', '0', '0', 'Z'] := by
    rw [String.data_append, hs]; rfl
  have hsk : ∀ (c : Char) (r : List Char), c ≠ ' ' → skip ([c].length + 1) (c :: r) [c] = some r :=
    fun c r hc => (skip_one c hc (c :: r) r).mpr rfl
  have hsk0 : ∀ v : List Char, skip (([] : List Char).length + 1) v [] = some v := skip_nil
  have e1 := fun (f : Fields) (r : List Char) =>
    (parseStd_longYear f _ (y1 :: y2 :: y3 :: y4 :: r) r).mpr ⟨y1, y2, y3, y4, rfl, hyd, rfl⟩
  have e2 := fun (f : Fields) (r : List Char) =>
    (parseStd_zeroMonth f _ (m1 :: m2 :: r) r).mpr ⟨m1, m2, rfl, hmd, hm1, hm2, rfl⟩
  have e3 := fun (f : Fields) (r : List Char) =>
    (parseStd_zeroDay f _ (d1 :: d2 :: r) r).mpr ⟨d1, d2, rfl, hdd, rfl⟩
  have htail := parseChunks_midnight_tail
  simp only [parseChunks] at htail
  simp only [Parse, layoutTimestamp, parseChunks, hdata, hsk0, hsk '-' _ (by decide), e1, e2, e3,
    Option.some_bind, htail]
  simp only [hsk 'Z' _ (by decide), Option.some_bind, ne_eq, not_true_eq_false, if_false]
  have q1 : ¬ (((10 * decimalValue d1 + decimalValue d2 : Nat) : Int) < 0) := by omega
  have q2 : ¬ (((10 * decimalValue m1 + decimalValue m2 : Nat) : Int) < 0) := by omega
  rw [if_neg q1, if_neg q2, daysIn_eq _ _ hm1 hm2, isLeap_natCast, if_neg (by omega),
    Date_midnight _ _ _ hm1 hm2 hd1]
  rfl

/-- A 204 answer of `putUserHandler` means every validation step passed. -/
theorem put_success_inv {σ : Type} (env : Env σ) (now : Time) (st : σ) (username body : String)
    (hput : (putUserHandler env now st username body).resp.status = 204) :
    validateUsername username = true ∧
      ∃ user, env.decodeUser body = some user ∧ validateDateOfBirth user.DateOfBirth now = none := by
  unfold putUserHandler at hput
  split at hput
  · simp at hput
  · split at hput
    · simp at hput
    · split at hput
      · simp at hput
      · rename_i hv
        split at hput
        · simp at hput
        · rename_i user hdec
          split at hput
          · simp at hput
          · rename_i hdate
            exact ⟨by simpa using hv, user, hdec, hdate⟩

/-- C9, on a store that hands back the text exactly as written: the write of
("Alice", "1990-04-20") answers 204, the store then returns "1990-04-20" for
Alice, and the read answers 500 "Invalid date stored", not a greeting. -/
theorem roundtrip_echo_store_fails :
    (putUserHandler echoEnv (Date 2024 4 20 12 0 0 0) [] "Alice"
      "\x7b\"dateOfBirth\":\"1990-04-20\"\x7d").resp = ⟨204, .empty⟩ ∧
    echoEnv.queryRow
      (putUserHandler echoEnv (Date 2024 4 20 12 0 0 0) [] "Alice"
        "\x7b\"dateOfBirth\":\"1990-04-20\"\x7d").db "Alice" = .row "1990-04-20" ∧
    (getUserHandler echoEnv (Date 2024 4 20 12 0 0 1)
      (putUserHandler echoEnv (Date 2024 4 20 12 0 0 0) [] "Alice"
        "\x7b\"dateOfBirth\":\"1990-04-20\"\x7d").db "Alice").resp =
      ⟨500, .text "Invalid date stored"⟩ := by
  decide

/-- The in-memory store with a date column returns, after an upsert of
(`u`, `d`), the text `d` followed by `T00:00:00Z` for `u`. -/
theorem dateColumnEnv_law (s : Records) (u d : String) :
    dateColumnEnv.queryRow (dateColumnEnv.exec s u d).1 u = .row (d ++ "T00:00:00Z") := by
  simp [dateColumnEnv, memExec, memQuery, List.lookup]

/-- C9, amended: on a store that is ready and that, after an upsert of a
username and a date that succeeds, returns for that username the date just
written rendered as the timestamp of its midnight in UTC (the date followed by
`T00:00:00Z`, as a date column is scanned), a write of (`u`, `d`) that
`putUserHandler` answers with 204 has issued that upsert, and a read of `u`
through `getUserHandler` on the state the write left behind answers 200 with a
message that contains "Hello, u!", and that is the happy-birthday message when
the month and day of the reading time are those of `d`. -/
theorem roundtrip_date_column {σ : Type} (env : Env σ) (now now1 : Time) (st : σ)
    (u body d : String)
    (hready : ∀ s : σ, isDatabaseReady env s = true)
    (hlaw : ∀ (s : σ) (u1 d1 : String), (env.exec s u1 d1).2 = true →
      env.queryRow (env.exec s u1 d1).1 u1 = .row (d1 ++ "T00:00:00Z"))
    (hdec : env.decodeUser body = some ⟨d⟩)
    (hput : (putUserHandler env now st u body).resp.status = 204) :
    validateUsername u = true ∧ validateDateOfBirth d now = none ∧
    (putUserHandler env now st u body).calls = [DBCall.ping, DBCall.exec u d] ∧
    (putUserHandler env now st u body).db = (env.exec st u d).1 ∧
    ∃ y m dd : Nat, IsCalendarDate d y m dd ∧
      (getUserHandler env now1 (putUserHandler env now st u body).db u).resp =
        ⟨200, .json [("message", createBirthdayMessage u (midnightUTC y m dd) now1)]⟩ ∧
      stringsContains (createBirthdayMessage u (midnightUTC y m dd) now1) ("Hello, " ++ u ++ "!") ∧
      ((now1.Month = (m : Int) ∧ now1.Day = (dd : Int)) →
        createBirthdayMessage u (midnightUTC y m dd) now1 = "Hello, " ++ u ++ "! Happy birthday!") := by
  obtain ⟨hv, user, hdec1, hdate⟩ := put_success_inv env now st u body hput
  rw [hdec] at hdec1
  have hu := Option.some.inj hdec1
  subst hu
  have hne : u ≠ "" := by
    rintro rfl
    revert hv
    decide
  have hexec : (env.exec st u d).2 = true := by
    cases he : (env.exec st u d).2 with
    | true => rfl
    | false =>
      unfold putUserHandler at hput
      simp [hready st, hne, hv, hdec, hdate, he] at hput
  have hcalls : (putUserHandler env now st u body).calls = [DBCall.ping, DBCall.exec u d] := by
    unfold putUserHandler
    simp [hready st, hne, hv, hdec, hdate, hexec]
  have hdb : (putUserHandler env now st u body).db = (env.exec st u d).1 := by
    unfold putUserHandler
    simp [hready st, hne, hv, hdec, hdate, hexec]
  have hcal : ∃ y m dd : Nat, IsCalendarDate d y m dd := by
    unfold validateDateOfBirth at hdate
    cases hp : Parse layoutDate d with
    | none => rw [hp] at hdate; cases hdate
    | some t =>
      obtain ⟨y, m, dd, h, -⟩ := (Parse_layoutDate d t).mp hp
      exact ⟨y, m, dd, h⟩
  obtain ⟨y, m, dd, hcal⟩ := hcal
  have hparse := Parse_timestamp_of_date d y m dd hcal
  have hstore : env.queryRow (putUserHandler env now st u body).db u = .row (d ++ "T00:00:00Z") := by
    rw [hdb]
    exact hlaw st u d hexec
  have hget := getUserHandler_found env now1 _ u _ _ (hready _) hne hv hstore hparse
  refine ⟨hv, hdate, hcalls, hdb, y, m, dd, hcal, hget, message_contains_hello _ _ _, ?_⟩
  intro hsame
  obtain ⟨y1, y2, y3, y4, m1, m2, d1, d2, -, -, -, -, -, -, -, -, -, hd1, hd2⟩ := hcal
  have hc := midnightUTC_civil y m dd hd1 hd2
  unfold createBirthdayMessage
  rw [if_pos ⟨by rw [hc.2.1, hsame.1], by rw [hc.2.2.1, hsame.2]⟩]

/-- The round trip of `u` = "Alice", `d` = "1990-04-20" on the in-memory store
with a date column, written on 2024-04-19 and read on 2024-04-20: the
happy-birthday message. -/
theorem roundtrip_date_column_witness :
    ((∀ s : Records, isDatabaseReady dateColumnEnv s = true) ∧
      (∀ (s : Records) (u1 d1 : String), (dateColumnEnv.exec s u1 d1).2 = true →
        dateColumnEnv.queryRow (dateColumnEnv.exec s u1 d1).1 u1 = .row (d1 ++ "T00:00:00Z")) ∧
      dateColumnEnv.decodeUser "\x7b\"dateOfBirth\":\"1990-04-20\"\x7d" = some ⟨"1990-04-20"⟩ ∧
      (putUserHandler dateColumnEnv (Date 2024 4 19 9 0 0 0) [] "Alice"
        "\x7b\"dateOfBirth\":\"1990-04-20\"\x7d").resp.status = 204) ∧
    (putUserHandler dateColumnEnv (Date 2024 4 19 9 0 0 0) [] "Alice"
      "\x7b\"dateOfBirth\":\"1990-04-20\"\x7d").calls =
      [DBCall.ping, DBCall.exec "Alice" "1990-04-20"] ∧
    (getUserHandler dateColumnEnv (Date 2024 4 20 12 0 0 0)
      (putUserHandler dateColumnEnv (Date 2024 4 19 9 0 0 0) [] "Alice"
        "\x7b\"dateOfBirth\":\"1990-04-20\"\x7d").db "Alice").resp =
      ⟨200, .json [("message", "Hello, Alice! Happy birthday!")]⟩ ∧
    ∃ y m dd : Nat, IsCalendarDate "1990-04-20" y m dd ∧
      stringsContains (createBirthdayMessage "Alice" (midnightUTC y m dd) (Date 2024 4 20 12 0 0 0))
        ("Hello, " ++ "Alice" ++ "!") := by
  have h := roundtrip_date_column dateColumnEnv (Date 2024 4 19 9 0 0 0) (Date 2024 4 20 12 0 0 0)
    [] "Alice" "\x7b\"dateOfBirth\":\"1990-04-20\"\x7d" "1990-04-20" (fun _ => rfl)
    (fun s u1 d1 _ => dateColumnEnv_law s u1 d1) (by decide) (by decide)
  obtain ⟨-, -, hcalls, -, y, m, dd, h1, -, h3, -⟩ := h
  exact ⟨⟨fun _ => rfl, fun s u1 d1 _ => dateColumnEnv_law s u1 d1, by decide, by decide⟩, hcalls,
    by decide, y, m, dd, h1, h3⟩

/-! ### Connection string -/

/-- C10: `hidePassword` does not replace exactly the password value of the
string built by `getDBConnectionString`. With the default settings it removes
the password together with the start of the database name; with the password
"secret" it returns the connection string unchanged, password included; with
the password "pass" it leaves the last two characters of the password. -/
theorem hidePassword_misses :
    hidePassword (getDBConnectionString fun _ => none) =
      "host=pgdb port=5432 user=hello_service_db_user password=*****service_db sslmode=disable" ∧
    hidePassword (getDBConnectionString fun k => if k = "DB_PASSWORD" then some "secret" else none) =
      "host=pgdb port=5432 user=hello_service_db_user password=secret dbname=hello_service_db sslmode=disable" ∧
    hidePassword (getDBConnectionString fun k => if k = "DB_PASSWORD" then some "pass" else none) =
      "host=pgdb port=5432 user=hello_service_db_user password=*****ss dbname=hello_service_db sslmode=disable" := by
  refine ⟨by decide, by decide, by decide⟩

end SrePrimer
